import Mathlib

/-!
Verification development for the schematic connectivity and geometry engine of
the KiCAD-MCP-Server repository (python/commands).

The embedding models:

* the S-expression text layer used by `wire_manager.py`,
  `dynamic_symbol_loader.py` and friends through the `sexpdata` library
  (`sexpdata.loads` / `sexpdata.dumps`): tokenizer, parser and serializer.
  A bare token is classified as `sexpdata` does, by trying `int(token)`,
  then `float(token)`, then falling back to `Symbol(token)`; a float value
  is represented by its `str()` spelling, the only observation the modelled
  code makes of one (`floatRepr` computes it by exact decimal evaluation,
  which coincides with CPython's shortest-round-trip `repr` on the literals
  admitted into the round-trip domain by `decSafe`);
* the structural editing routines `WireManager.add_wire`,
  `add_polyline_wire`, `add_label`, `add_junction`, `add_no_connect`
  (each: read, parse, insert before the `sheet_instances` item, re-serialize
  the whole document);
* the pin geometry and lookup layer of `pin_locator.py`
  (`_resolve_symbol_reference`, `_find_pin_key`, `rotate_point`,
  `get_pin_info`), with coordinates as exact rationals (the Python floats);
* the connectivity layer of `connection_schematic.py`
  (`points_coincide`, `get_net_connections`, `generate_netlist`,
  and the stub-direction selection in `connect_to_net`).
-/

namespace KicadMCP

/-! ## Character classes of the sexpdata tokenizer -/

abbrev Chars := List Char

/-- Whitespace characters recognised by the tokenizer. -/
def isWsChar (c : Char) : Bool :=
  c = ' ' || c = '\n' || c = '\t' || c = '\r'

/-- Characters that terminate a bare token: whitespace, parentheses and the
string quote. -/
def isDelimChar (c : Char) : Bool :=
  isWsChar c || c = '(' || c = ')' || c = '"'

/-! ## Tokens -/

/-- Tokens produced by the tokenizer: parentheses, bare tokens (later
classified as symbols or integers) and quoted strings. -/
inductive Tok where
  | lp : Tok
  | rp : Tok
  | atom (s : Chars) : Tok
  | str (s : Chars) : Tok
deriving DecidableEq

/-- Tokenizer state: either scanning normally (possibly in the middle of a
bare token, accumulated in reverse) or inside a quoted string. -/
inductive TState where
  | normal (cur : Option Chars) : TState
  | instr (cur : Chars) : TState
deriving DecidableEq

/-- Flush a partially accumulated bare token onto the (reversed) token list. -/
def flushTok (cur : Option Chars) (acc : List Tok) : List Tok :=
  match cur with
  | none => acc
  | some a => Tok.atom a.reverse :: acc

/-- One-character-at-a-time tokenizer; `none` on an unterminated string.
Mirrors how `sexpdata` splits KiCad schematic text into tokens. -/
def tokAux : Chars → TState → List Tok → Option (List Tok)
  | [], .normal cur, acc => some (flushTok cur acc).reverse
  | [], .instr _, _ => none
  | c :: cs, .instr cur, acc =>
      if c = '"' then tokAux cs (.normal none) (Tok.str cur.reverse :: acc)
      else tokAux cs (.instr (c :: cur)) acc
  | c :: cs, .normal cur, acc =>
      if isWsChar c then tokAux cs (.normal none) (flushTok cur acc)
      else if c = '(' then tokAux cs (.normal none) (Tok.lp :: flushTok cur acc)
      else if c = ')' then tokAux cs (.normal none) (Tok.rp :: flushTok cur acc)
      else if c = '"' then tokAux cs (.instr []) (flushTok cur acc)
      else
        match cur with
        | none => tokAux cs (.normal (some [c])) acc
        | some a => tokAux cs (.normal (some (c :: a))) acc

/-- Tokenize a character list. -/
def tokenize (l : Chars) : Option (List Tok) :=
  tokAux l (.normal none) []

/-! ## S-expression values (the Python objects built by `sexpdata.loads`) -/

/-- S-expression values: bare symbols (`sexpdata.Symbol`), quoted strings
(Python `str`), integers (Python `int`), floats (Python `float`, represented
by the `str()` spelling of the value - the only observation the modelled
code ever makes of a float is serializing it), and nested lists. -/
inductive SExpr where
  | sym (s : String) : SExpr
  | str (s : String) : SExpr
  | int (n : Int) : SExpr
  | dec (t : String) : SExpr
  | list (xs : List SExpr) : SExpr

/-- Structural induction principle for `SExpr` with list members handled via
membership (the nested `List` occurrence defeats the derived recursor). -/
def SExpr.ind {motive : SExpr → Prop}
    (hsym : ∀ s, motive (.sym s)) (hstr : ∀ s, motive (.str s))
    (hint : ∀ n, motive (.int n)) (hdec : ∀ t, motive (.dec t))
    (hlist : ∀ xs, (∀ x ∈ xs, motive x) → motive (.list xs)) :
    ∀ e, motive e
  | .sym s => hsym s
  | .str s => hstr s
  | .int n => hint n
  | .dec t => hdec t
  | .list xs => hlist xs (fun x hx =>
      have : sizeOf x < sizeOf (SExpr.list xs) := by
        have h := List.sizeOf_lt_of_mem hx
        simp only [SExpr.list.sizeOf_spec]
        omega
      SExpr.ind hsym hstr hint hdec hlist x)
termination_by e => sizeOf e

mutual

/-- Boolean structural equality on S-expressions. -/
def SExpr.beq : SExpr → SExpr → Bool
  | .sym a, .sym b => a = b
  | .str a, .str b => a = b
  | .int a, .int b => a = b
  | .dec a, .dec b => a = b
  | .list xs, .list ys => SExpr.beqList xs ys
  | _, _ => false

/-- Boolean structural equality on lists of S-expressions. -/
def SExpr.beqList : List SExpr → List SExpr → Bool
  | [], [] => true
  | x :: xs, y :: ys => SExpr.beq x y && SExpr.beqList xs ys
  | _, _ => false

end

/-- `SExpr.beq` decides propositional equality. -/
def SExpr.beq_iff_eq : ∀ a b : SExpr, SExpr.beq a b = true ↔ a = b := by
  intro a
  induction a using SExpr.ind with
  | hsym s => intro b; cases b <;> simp [SExpr.beq]
  | hstr s => intro b; cases b <;> simp [SExpr.beq]
  | hint n => intro b; cases b <;> simp [SExpr.beq]
  | hdec t => intro b; cases b <;> simp [SExpr.beq]
  | hlist xs ih =>
      intro b
      cases b with
      | sym s => simp [SExpr.beq]
      | str s => simp [SExpr.beq]
      | int n => simp [SExpr.beq]
      | dec t => simp [SExpr.beq]
      | list ys =>
          simp only [SExpr.beq, SExpr.list.injEq]
          induction xs generalizing ys with
          | nil => cases ys <;> simp [SExpr.beqList]
          | cons x xs ihx =>
              cases ys with
              | nil => simp [SExpr.beqList]
              | cons y ys =>
                  simp only [SExpr.beqList, Bool.and_eq_true, List.cons.injEq]
                  constructor
                  · rintro ⟨h1, h2⟩
                    exact ⟨(ih x (by simp) y).mp h1,
                      (ihx (fun z hz => ih z (by simp [hz])) ys).mp h2⟩
                  · rintro ⟨h1, h2⟩
                    exact ⟨(ih x (by simp) y).mpr h1,
                      (ihx (fun z hz => ih z (by simp [hz])) ys).mpr h2⟩

instance : DecidableEq SExpr := fun a b =>
  decidable_of_iff (SExpr.beq a b = true) (SExpr.beq_iff_eq a b)

/-- ASCII decimal digit test. -/
def isDigitChar (c : Char) : Bool := '0' ≤ c && c ≤ '9'

/-- Strip one leading `+` or `-` sign (Python numeric literals allow one). -/
def stripSign : Chars → Chars
  | [] => []
  | c :: cs => if c = '+' || c = '-' then cs else c :: cs

/-- Does the token carry a leading minus sign? -/
def isNegSign : Chars → Bool
  | [] => false
  | c :: _ => c = '-'

/-- Continuation of a Python digit group: digits, with single underscores
allowed only between digits. -/
def digitsTail : Chars → Bool
  | [] => true
  | c :: cs =>
      if isDigitChar c then digitsTail cs
      else if c = '_' then
        match cs with
        | [] => false
        | d :: cs' => isDigitChar d && digitsTail cs'
      else false

/-- A Python digit group: non-empty, starts with a digit, single underscores
only between digits. -/
def digitsU : Chars → Bool
  | [] => false
  | c :: cs => isDigitChar c && digitsTail cs

/-- Does a bare token parse as a Python `int` literal (`int(token)`
succeeds): an optional sign followed by a digit group?  (ASCII literals;
Python additionally accepts unicode digits and exotic unicode whitespace,
which never occur in KiCad documents.) -/
def isIntToken (ds : Chars) : Bool := digitsU (stripSign ds)

/-- Numeric value of a digit string. -/
def digitsToNat (ds : Chars) : Nat :=
  ds.foldl (fun a c => a * 10 + (c.toNat - 48)) 0

/-- Integer value of an integer token: sign applied to its digits,
underscores ignored. -/
def tokToInt (ds : Chars) : Int :=
  if isNegSign ds then -(digitsToNat ((stripSign ds).filter isDigitChar) : Int)
  else (digitsToNat ((stripSign ds).filter isDigitChar) : Int)

/-- Lower-case an ASCII letter (for the case-insensitive `inf` / `nan`
spellings accepted by Python `float`). -/
def lowerAscii (c : Char) : Char :=
  if 'A' ≤ c && c ≤ 'Z' then Char.ofNat (c.toNat + 32) else c

/-- The unsigned special spellings accepted case-insensitively by Python
`float`. -/
def isInfNan (ds : Chars) : Bool :=
  ds.map lowerAscii = ['i', 'n', 'f'] ||
  ds.map lowerAscii = ['i', 'n', 'f', 'i', 'n', 'i', 't', 'y'] ||
  ds.map lowerAscii = ['n', 'a', 'n']

/-- Exponent marker of a float literal. -/
def isExpChar (c : Char) : Bool := c = 'e' || c = 'E'

/-- Mantissa of a float literal: a digit group, optionally containing one
decimal point with a digit group on at least one side. -/
def mantOk (m : Chars) : Bool :=
  match m.span (fun c => !(c = '.')) with
  | (ip, []) => digitsU ip
  | (ip, _ :: fd) =>
      !fd.contains '.' && !(ip.isEmpty && fd.isEmpty) &&
      (digitsU ip || ip.isEmpty) && (digitsU fd || fd.isEmpty)

/-- Does a bare token parse as a Python `float` literal (`float(token)`
succeeds): an optional sign followed by either a special `inf` / `nan`
spelling or a mantissa with an optional signed exponent? -/
def isFloatToken (ds : Chars) : Bool :=
  isInfNan (stripSign ds) ||
  (match (stripSign ds).span (fun c => !isExpChar c) with
   | (m, []) => mantOk m
   | (m, _ :: e) => mantOk m && digitsU (stripSign e))

/-- Signed value of the exponent part of a float literal. -/
def expVal (e : Chars) : Int :=
  if isNegSign e then -(digitsToNat ((stripSign e).filter isDigitChar) : Int)
  else (digitsToNat ((stripSign e).filter isDigitChar) : Int)

/-- Strip up to `s` trailing zero digits from `n` (scale reduction of an
exact decimal `n / 10 ^ s`). -/
def stripZeros : Nat → Nat → Nat × Nat
  | n, 0 => (n, 0)
  | n, s + 1 => if n % 10 = 0 then stripZeros (n / 10) s else (n, s + 1)

/-- Decimal digit character for a value below ten. -/
def digitChar (d : Nat) : Char := Char.ofNat (48 + d)

/-- Decimal digits of a natural number (fuel-based so it reduces in the
kernel; the fuel `n + 1` always suffices). -/
def natCharsAux : Nat → Nat → Chars
  | 0, _ => []
  | fuel + 1, n =>
      if n < 10 then [digitChar n]
      else natCharsAux fuel (n / 10) ++ [digitChar (n % 10)]

/-- Decimal digits of a natural number. -/
def natChars (n : Nat) : Chars := natCharsAux (n + 1) n

/-- The `str()` spelling of the value of a float token, by exact decimal
evaluation: underscores are dropped, the exponent is applied by shifting the
decimal point, trailing fraction zeros and leading integer zeros disappear,
and a single `0` stands in for an empty side of the point (`str` of a Python
float always prints digits on both sides); the special spellings print as
`inf`, `-inf` and `nan`.  This is exactly CPython's output for literals of
at most 15 significant digits whose magnitude lies in `[0.0001, 1e16)` or is
zero: CPython prints the shortest decimal that rounds to the same binary64
value, which for those literals is the normalized literal itself.  Literals
outside that region (printed by CPython in scientific notation, or shortened
by binary64 rounding) are kept as exact decimals here; `decSafe` keeps them
out of the round-trip domain. -/
def floatRepr (ds : Chars) : Chars :=
  if isInfNan (stripSign ds) then
    if (stripSign ds).map lowerAscii = ['n', 'a', 'n'] then ['n', 'a', 'n']
    else if isNegSign ds then ['-', 'i', 'n', 'f'] else ['i', 'n', 'f']
  else
    let me := (stripSign ds).span (fun c => !isExpChar c)
    let k : Int := match me.2 with | [] => 0 | _ :: e => expVal e
    let ipf := me.1.span (fun c => !(c = '.'))
    let fd : Chars := match ipf.2 with | [] => [] | _ :: f => f
    let n := digitsToNat ((ipf.1 ++ fd).filter isDigitChar)
    let s : Int := ((fd.filter isDigitChar).length : Int) - k
    let sgn : Chars := if isNegSign ds then ['-'] else []
    if s ≤ 0 then sgn ++ natChars (n * 10 ^ (-s).toNat) ++ ['.', '0']
    else
      let ns := stripZeros n s.toNat
      if ns.2 = 0 then sgn ++ natChars ns.1 ++ ['.', '0']
      else
        let fds := natChars (ns.1 % 10 ^ ns.2)
        sgn ++ natChars (ns.1 / 10 ^ ns.2) ++
          '.' :: (List.replicate (ns.2 - fds.length) '0' ++ fds)

/-- Safety region of the float model, tested on the canonical spelling: at
most 15 significant digits and magnitude in `[0.0001, 1e16)` or zero - the
region where CPython's `repr` of the parsed binary64 value provably equals
the normalized decimal spelling (decimal-to-binary64 conversion is injective
below 16 significant digits, and `repr` uses fixed-point notation exactly in
this magnitude range). -/
def decSafe (ds : Chars) : Bool :=
  let ipf := (stripSign ds).span (fun c => !(c = '.'))
  let fd : Chars := match ipf.2 with | [] => [] | _ :: f => f
  ipf.1.length ≤ 16 &&
  !(ipf.1 = ['0'] && fd.take 4 = ['0', '0', '0', '0']) &&
  ((ipf.1 ++ fd).dropWhile (fun c => c = '0')).length ≤ 15

/-- Classification of a bare token, as `sexpdata` does: `int(token)`,
falling back to `float(token)`, falling back to `Symbol(token)`.  A float
value is represented by its `str()` spelling. -/
def classify (s : Chars) : SExpr :=
  if isIntToken s then .int (tokToInt s)
  else if isFloatToken s then .dec ⟨floatRepr s⟩
  else .sym ⟨s⟩

/-- Stack machine consuming the token stream: the stack holds the reversed
contents of each unclosed list, with a bottom frame collecting top-level
expressions.  `sexpdata.loads` requires exactly one top-level expression. -/
def runPDA : List Tok → List (List SExpr) → Option SExpr
  | [], [[e]] => some e
  | [], _ => none
  | t :: ts, stack =>
      match t, stack with
      | .lp, _ => runPDA ts ([] :: stack)
      | .rp, top :: up :: rest => runPDA ts ((SExpr.list top.reverse :: up) :: rest)
      | .rp, _ => none
      | .atom s, top :: rest => runPDA ts ((classify s :: top) :: rest)
      | .atom _, [] => none
      | .str s, top :: rest => runPDA ts ((SExpr.str ⟨s⟩ :: top) :: rest)
      | .str _, [] => none

/-- Model of `sexpdata.loads`: parse one S-expression from text, `none` on
malformed input (unbalanced parentheses, unterminated string, trailing
expressions). -/
def loads (text : String) : Option SExpr :=
  match tokenize text.data with
  | none => none
  | some ts => runPDA ts [[]]

/-! ## Serialization (the Python `sexpdata.dumps`) -/

/-- Decimal representation of an integer (Python `repr` of an `int`). -/
def intChars (n : Int) : Chars :=
  if n < 0 then '-' :: natChars n.natAbs else natChars n.natAbs

mutual

/-- Model of `sexpdata.dumps`, producing characters: symbols print bare,
strings print quoted, lists print parenthesized with single-space separators.
All original formatting of a parsed document is lost. -/
def dumpsChars : SExpr → Chars
  | .sym s => s.data
  | .str s => '"' :: s.data ++ ['"']
  | .int n => intChars n
  | .dec t => t.data
  | .list xs => '(' :: dumpsList xs ++ [')']

/-- Serialize a list body with single-space separators (`" ".flatten`). -/
def dumpsList : List SExpr → Chars
  | [] => []
  | [x] => dumpsChars x
  | x :: y :: xs => dumpsChars x ++ ' ' :: dumpsList (y :: xs)

end

/-- Model of `sexpdata.dumps` as a string. -/
def dumps (e : SExpr) : String := ⟨dumpsChars e⟩

/-- Does a character list start at a token boundary (empty, or a delimiter
first)?  Serialized expressions are always followed by such a suffix. -/
def headDelim : Chars → Bool
  | [] => true
  | c :: _ => isDelimChar c

mutual

/-- The token stream produced by tokenizing a serialized expression. -/
def toks : SExpr → List Tok
  | .sym s => [.atom s.data]
  | .str s => [.str s.data]
  | .int n => [.atom (intChars n)]
  | .dec t => [.atom t.data]
  | .list xs => .lp :: toksList xs ++ [.rp]

/-- Token stream of a space-separated list body. -/
def toksList : List SExpr → List Tok
  | [] => []
  | [x] => toks x
  | x :: y :: xs => toks x ++ toksList (y :: xs)

end

mutual

/-- Well-formedness of an expression for the parsing round-trip: symbols and
floats serialize to a single non-empty delimiter-free token that `classify`
maps back to the same atom (for a symbol: neither `int(token)` nor
`float(token)` succeeds; for a float: its spelling is canonical), floats
additionally lie in the `decSafe` region where the exact-decimal float model
provably agrees with CPython, strings contain no quote or backslash (so no
escaping is involved), and integers are unrestricted. -/
def wfSExpr : SExpr → Bool
  | .sym s => decide (s.data ≠ []) && s.data.all (fun c => !isDelimChar c) &&
      decide (classify s.data = SExpr.sym s)
  | .str s => s.data.all (fun c => !(c = '"' || c = '\\'))
  | .int _ => true
  | .dec t => decide (t.data ≠ []) && t.data.all (fun c => !isDelimChar c) &&
      decide (classify t.data = SExpr.dec t) && decSafe t.data
  | .list xs => wfList xs

/-- Well-formedness of every element of a list. -/
def wfList : List SExpr → Bool
  | [] => true
  | x :: xs => wfSExpr x && wfList xs

end

/-! ## Structural edits (`wire_manager.py`, `dynamic_symbol_loader.py`)

Every editing routine reads the file, parses it with `sexpdata.loads`,
mutates the resulting Python list in memory, and rewrites the whole file with
`sexpdata.dumps`; on any failure it returns `False` without writing.  The
models below return the pair (success flag, resulting file text); the text
is unchanged exactly when no write happened. -/

/-- Python `list.insert(i, a)`. -/
def pyInsert (l : List SExpr) (i : Nat) (a : SExpr) : List SExpr :=
  l.take i ++ a :: l.drop i

/-- Index search loop `for i, item in enumerate(...)` with a tag test. -/
def pyFindIdxAux (p : SExpr → Bool) : List SExpr → Nat → Option Nat
  | [], _ => none
  | x :: xs, i => if p x then some i else pyFindIdxAux p xs (i + 1)

/-- First index whose element satisfies `p`. -/
def pyFindIdx (p : SExpr → Bool) (l : List SExpr) : Option Nat :=
  pyFindIdxAux p l 0

/-- The test `isinstance(item, list) and len(item) > 0 and item[0] == Symbol(tag)`. -/
def isTagged (tag : String) : SExpr → Bool
  | .list (.sym t :: _) => t = tag
  | _ => false

/-- The wire S-expression built by `WireManager.add_wire` (the fresh UUID is a
parameter; stroke width and type keep their call-site defaults as values). -/
def wireSexp (x1 y1 x2 y2 : Int) (strokeWidth : Int) (strokeType uuid : String) : SExpr :=
  .list [.sym "wire",
    .list [.sym "pts", .list [.sym "xy", .int x1, .int y1],
      .list [.sym "xy", .int x2, .int y2]],
    .list [.sym "stroke", .list [.sym "width", .int strokeWidth],
      .list [.sym "type", .sym strokeType]],
    .list [.sym "uuid", .str uuid]]

/-- The polyline wire S-expression built by `WireManager.add_polyline_wire`. -/
def polylineSexp (points : List (Int × Int)) (strokeWidth : Int)
    (strokeType uuid : String) : SExpr :=
  .list [.sym "wire",
    .list (.sym "pts" :: points.map (fun p => SExpr.list [.sym "xy", .int p.1, .int p.2])),
    .list [.sym "stroke", .list [.sym "width", .int strokeWidth],
      .list [.sym "type", .sym strokeType]],
    .list [.sym "uuid", .str uuid]]

/-- The label S-expression built by `WireManager.add_label` (font size 1.27 is
a Python float, carried by its `str()` spelling). -/
def labelSexp (labelType text : String) (x y : Int) (orientation : Int)
    (uuid : String) : SExpr :=
  .list [.sym labelType, .str text,
    .list [.sym "at", .int x, .int y, .int orientation],
    .list [.sym "fields_autoplaced", .sym "yes"],
    .list [.sym "effects",
      .list [.sym "font", .list [.sym "size", .dec "1.27", .dec "1.27"]],
      .list [.sym "justify", .sym "left", .sym "bottom"]],
    .list [.sym "uuid", .str uuid]]

/-- The junction S-expression built by `WireManager.add_junction`. -/
def junctionSexp (x y diameter : Int) (uuid : String) : SExpr :=
  .list [.sym "junction", .list [.sym "at", .int x, .int y],
    .list [.sym "diameter", .int diameter],
    .list [.sym "color", .int 0, .int 0, .int 0, .int 0],
    .list [.sym "uuid", .str uuid]]

/-- The no-connect S-expression built by `WireManager.add_no_connect`. -/
def noConnectSexp (x y : Int) (uuid : String) : SExpr :=
  .list [.sym "no_connect", .list [.sym "at", .int x, .int y],
    .list [.sym "uuid", .str uuid]]

/-- Shared tail of every insertion edit: find the `sheet_instances` item,
insert the new element before it, and rewrite the whole file with `dumps`;
on parse failure or a missing section, return failure with the text intact. -/
def insertBeforeSheetInstances (text : String) (e : SExpr) : Bool × String :=
  match loads text with
  | some (.list items) =>
      match pyFindIdx (isTagged "sheet_instances") items with
      | none => (false, text)
      | some i => (true, dumps (.list (pyInsert items i e)))
  | _ => (false, text)

/-- `WireManager.add_wire`. -/
def addWire (text : String) (x1 y1 x2 y2 : Int) (uuid : String) : Bool × String :=
  insertBeforeSheetInstances text (wireSexp x1 y1 x2 y2 0 "default" uuid)

/-- `WireManager.add_polyline_wire`: rejects fewer than two points before
even reading the file. -/
def addPolylineWire (text : String) (points : List (Int × Int)) (uuid : String) :
    Bool × String :=
  if points.length < 2 then (false, text)
  else insertBeforeSheetInstances text (polylineSexp points 0 "default" uuid)

/-- `WireManager.add_label`. -/
def addLabel (text : String) (labelType labelText : String) (x y orientation : Int)
    (uuid : String) : Bool × String :=
  insertBeforeSheetInstances text (labelSexp labelType labelText x y orientation uuid)

/-- `WireManager.add_junction`. -/
def addJunction (text : String) (x y diameter : Int) (uuid : String) : Bool × String :=
  insertBeforeSheetInstances text (junctionSexp x y diameter uuid)

/-- `WireManager.add_no_connect`. -/
def addNoConnect (text : String) (x y : Int) (uuid : String) : Bool × String :=
  insertBeforeSheetInstances text (noConnectSexp x y uuid)

/-- Parse-then-reserialize with zero edits, as performed e.g. by
`DynamicSymbolLoader.inject_symbol_into_schematic` when the symbol already
exists in the document. -/
def reserialize (text : String) : Option String :=
  (loads text).map dumps

/-! ## String helpers mirroring the Python string methods used by
`pin_locator.py` (ASCII domain of reference designators and pin names) -/

/-- Characters stripped by Python `str.strip()`. -/
def isSpaceChar (c : Char) : Bool :=
  c = ' ' || c = '\t' || c = '\n' || c = '\r' || c = '\x0b' || c = '\x0c'

/-- Python `str.strip()`. -/
def pyStrip (s : String) : String :=
  ⟨((s.data.dropWhile isSpaceChar).reverse.dropWhile isSpaceChar).reverse⟩

/-- Python `str.lower()` (ASCII). -/
def pyLower (s : String) : String := ⟨s.data.map Char.toLower⟩

/-- Python `str.isdigit()` (ASCII). -/
def pyIsDigit (s : String) : Bool := s.data ≠ [] && s.data.all isDigitChar

/-- Python `str(int(s))` for an all-digit string: canonical decimal form with
leading zeros removed. -/
def canonicalDigits (s : String) : String :=
  match s.data.dropWhile (· = '0') with
  | [] => "0"
  | ds => ⟨ds⟩

/-- Python `s.endswith("_")`. -/
def endsWithUnderscore (s : String) : Bool := s.data.getLast? = some '_'

/-- Python `s[:-1]`. -/
def pyDropLast (s : String) : String := ⟨s.data.dropLast⟩

/-! ## Pin data model (`pin_locator.py`)

`PinLocator.parse_symbol_definition` turns a symbol definition into an
insertion-ordered dict "pin number -> pin data"; the model carries that dict
directly as an association list. -/

/-- One entry of the pin dictionary (coordinates, angle and length are exact
rationals standing for the Python floats). -/
structure PinData where
  x : ℚ
  y : ℚ
  angle : ℚ
  length : ℚ
  name : String
  number : String
  etype : String
deriving DecidableEq

/-- The pin dictionary: insertion-ordered map from pin number to pin data. -/
abbrev Pins := List (String × PinData)

/-- Dict membership `key in pins`. -/
def hasKey (pins : Pins) (k : String) : Bool := pins.any (fun p => p.1 = k)

/-- `PinLocator._normalize_pin_identifier`. -/
def normalizePinIdentifier (s : String) : String := pyStrip s

/-- The name-match test of `_find_pin_key`: non-empty stripped name equal to
the normalized identifier, case-insensitively. -/
def nameMatches (normalized : String) (pd : PinData) : Bool :=
  let nm := pyStrip pd.name
  nm ≠ "" && pyLower nm = pyLower normalized

/-- `PinLocator._find_pin_key`: match by pin number first, then by pin name
(case-insensitive), then by the canonical decimal form of an all-digit
identifier. -/
def findPinKey (pins : Pins) (pinIdentifier : String) : Option String :=
  let normalized := normalizePinIdentifier pinIdentifier
  if hasKey pins normalized then some normalized
  else
    match pins.find? (fun p => nameMatches normalized p.2) with
    | some p => some p.1
    | none =>
        if pyIsDigit normalized && hasKey pins (canonicalDigits normalized) then
          some (canonicalDigits normalized)
        else none

/-! ## Schematic object model

The in-memory view of a schematic document as traversed by `pin_locator.py`
(through `kicad-skip` symbol instances plus the parsed `lib_symbols` section)
and by `connection_schematic.py` (labels and wires). -/

/-- A placed symbol instance: reference designator, position, rotation,
optional `lib_id`, and the Value/Footprint properties used for netlists. -/
structure SymbolInst where
  reference : String
  x : ℚ
  y : ℚ
  rotation : ℚ
  libId : Option String
  value : String
  footprint : String
deriving DecidableEq

/-- A net label. -/
structure LabelNode where
  text : String
  x : ℚ
  y : ℚ
deriving DecidableEq

/-- A wire: ordered list of polyline vertices. -/
structure WireNode where
  pts : List (ℚ × ℚ)
deriving DecidableEq

/-- A schematic document: symbol instances, labels, wires and the parsed
`lib_symbols` pin tables keyed by `lib_id`. -/
structure Schematic where
  symbols : List SymbolInst
  labels : List LabelNode
  wires : List WireNode
  libSymbols : List (String × Pins)
deriving DecidableEq

/-- `PinLocator.get_symbol_pins`: pin table of a `lib_id` from the document's
`lib_symbols` section, empty when the symbol is absent. -/
def getSymbolPins (sch : Schematic) (libId : String) : Pins :=
  match sch.libSymbols.find? (fun p => p.1 = libId) with
  | some p => p.2
  | none => []

/-- `PinLocator._resolve_symbol_reference`: exact reference first, then the
variant with a trailing underscore appended (or removed). -/
def resolveSymbolReference (refs : List String) (r : String) : Option String :=
  if refs.contains r then some r
  else if !endsWithUnderscore r && refs.contains (r ++ "_") then some (r ++ "_")
  else if endsWithUnderscore r && refs.contains (pyDropLast r) then some (pyDropLast r)
  else none

/-! ## Rotation (`PinLocator.rotate_point`)

Coordinates are exact rationals; the cosine/sine table below is exact on the
canonical right-angle rotations 0/90/180/270 declared by the spec's data
model (the float implementation computes these within 1e-16, never crossing
any comparison threshold used by this code).  Non-canonical angles are
outside this rational model (the table returns 0 there). -/

/-- Python float `a % b` for positive `b`. -/
def qfmod (a b : ℚ) : ℚ := a - b * ⌊a / b⌋

/-- Cosine (degrees), exact on the canonical right angles. -/
def qcos (θ : ℚ) : ℚ :=
  let m := qfmod θ 360
  if m = 0 then 1 else if m = 90 then 0 else if m = 180 then -1
  else if m = 270 then 0 else 0

/-- Sine (degrees), exact on the canonical right angles. -/
def qsin (θ : ℚ) : ℚ := qcos (90 - θ)

/-- `PinLocator.rotate_point` over rationals: rotation 0 short-circuits,
otherwise the standard counter-clockwise rotation formula. -/
def rotatePointQ (x y angleDegrees : ℚ) : ℚ × ℚ :=
  if angleDegrees = 0 then (x, y)
  else (x * qcos angleDegrees - y * qsin angleDegrees,
        x * qsin angleDegrees + y * qcos angleDegrees)

/-! ## Pin resolution (`PinLocator.get_pin_info`) -/

/-- The structured content of the error messages set by `get_pin_info` via
`_set_error`; `pinNotFound` carries the attempted identifier and the full
lists of available pin numbers and (non-empty) pin names interpolated into
the message. -/
inductive PinError where
  | symbolNotFound (ref : String)
  | noLibId (ref : String)
  | noPinDefinitions (libId : String)
  | pinNotFound (attempted : String) (availableNumbers : List String)
      (availableNames : List String)
deriving DecidableEq

/-- The successful result dict of `get_pin_info`. -/
structure PinInfo where
  x : ℚ
  y : ℚ
  symbolReference : String
  pinKey : String
  pinName : String
  pinAngle : ℚ
  symbolRotation : ℚ
  effectiveAngle : ℚ
deriving DecidableEq

/-- `PinLocator.get_pin_info`: resolve the reference (tolerating the
underscore variant), find the instance, fetch its pin table by `lib_id`,
look the pin up by number/name, rotate the pin offset by the instance
rotation and add the instance position.  The final `find?` branch returning
`pinNotFound` with empty lists is unreachable: `findPinKey` only returns
keys present in the table. -/
def getPinInfo (sch : Schematic) (symbolReference pinNumber : String) :
    Except PinError PinInfo :=
  let refs := sch.symbols.map (·.reference)
  match resolveSymbolReference refs symbolReference with
  | none => .error (.symbolNotFound symbolReference)
  | some resolvedRef =>
      match sch.symbols.find? (fun s => s.reference = resolvedRef) with
      | none => .error (.symbolNotFound resolvedRef)
      | some sym =>
          match sym.libId with
          | none => .error (.noLibId resolvedRef)
          | some libId =>
              let pins := getSymbolPins sch libId
              if pins.isEmpty then .error (.noPinDefinitions libId)
              else
                match findPinKey pins pinNumber with
                | none =>
                    .error (.pinNotFound pinNumber (pins.map (·.1))
                      ((pins.map (fun p => p.2.name)).filter (· ≠ "")))
                | some pinKey =>
                    match pins.find? (fun p => p.1 = pinKey) with
                    | none => .error (.pinNotFound pinNumber [] [])
                    | some entry =>
                        let pd := entry.2
                        let r := if sym.rotation = 0 then (pd.x, pd.y)
                                 else rotatePointQ pd.x pd.y sym.rotation
                        .ok { x := sym.x + r.1, y := sym.y + r.2,
                              symbolReference := resolvedRef, pinKey := pinKey,
                              pinName := pd.name, pinAngle := pd.angle,
                              symbolRotation := sym.rotation,
                              effectiveAngle := qfmod (pd.angle + sym.rotation) 360 }

/-- `PinLocator.get_pin_location`: location-only helper. -/
def getPinLocation (sch : Schematic) (symbolReference pinNumber : String) :
    Option (ℚ × ℚ) :=
  match getPinInfo sch symbolReference pinNumber with
  | .ok info => some (info.x, info.y)
  | .error _ => none

/-! ## Connectivity (`ConnectionManager.get_net_connections`,
`generate_netlist`) -/

/-- The hard-coded coincidence tolerance of `get_net_connections`
(`tolerance = 0.5`, millimetres). -/
def tolerance : ℚ := 1 / 2

/-- The inner `points_coincide` of `get_net_connections`: both coordinate
differences strictly below the tolerance (per-axis, not Euclidean). -/
def pointsCoincide (p1 p2 : ℚ × ℚ) : Bool :=
  let dx := |p1.1 - p2.1|
  let dy := |p1.2 - p2.2|
  decide (dx < tolerance) && decide (dy < tolerance)

/-- One reported connection `{"component": ref, "pin": pin}`. -/
structure Connection where
  component : String
  pin : String
deriving DecidableEq

/-- Does a wire touch (within tolerance) any of the given label positions? -/
def wireTouches (labelPts : List (ℚ × ℚ)) (w : WireNode) : Bool :=
  w.pts.any (fun p => labelPts.any (fun lp => pointsCoincide p lp))

/-- Accurate per-symbol pin matching (the branch taken when a `PinLocator`
and the schematic path are available): every pin of the symbol's table whose
resolved absolute location coincides with some connected wire point. -/
def symbolConnections (sch : Schematic) (wirePts : List (ℚ × ℚ))
    (s : SymbolInst) : List Connection :=
  match s.libId with
  | none => []
  | some libId =>
      (getSymbolPins sch libId).filterMap (fun p =>
        match getPinLocation sch s.reference p.1 with
        | none => none
        | some loc =>
            if wirePts.any (fun wp => pointsCoincide loc wp) then
              some ⟨s.reference, p.1⟩
            else none)

/-- Fallback proximity matching (no `PinLocator`/path): any symbol whose
origin lies within 10 mm of a connected wire point is reported with pin
`"unknown"` (the Python `sqrt(d2) < 10` is the exact test `d2 < 100`). -/
def symbolFallback (wirePts : List (ℚ × ℚ)) (s : SymbolInst) : List Connection :=
  if wirePts.any (fun wp => decide ((s.x - wp.1) ^ 2 + (s.y - wp.2) ^ 2 < 100)) then
    [⟨s.reference, "unknown"⟩]
  else []

/-- Step 1 of `get_net_connections`: positions of the labels carrying the
net name. -/
def netLabelPts (sch : Schematic) (netName : String) : List (ℚ × ℚ) :=
  (sch.labels.filter (fun l => l.text = netName)).map (fun l => (l.x, l.y))

/-- Step 2 of `get_net_connections`: all vertices of every wire having some
vertex coincident with one of the net's label positions. -/
def connectedWirePts (sch : Schematic) (netName : String) : List (ℚ × ℚ) :=
  ((sch.wires.filter (wireTouches (netLabelPts sch netName))).map WireNode.pts).flatten

/-- `ConnectionManager.get_net_connections`: positions of the labels carrying
the net name, then the vertices of every wire with a vertex coincident with
one of those label positions, then the pins (or, without a locator, the
nearby symbols) coincident with those wire vertices.  Connectivity is a
single label-to-wire hop: wires only touching other wires are not followed. -/
def getNetConnections (sch : Schematic) (netName : String) (hasPath : Bool) :
    List Connection :=
  if (netLabelPts sch netName).isEmpty then []
  else
    let wirePts := connectedWirePts sch netName
    if wirePts.isEmpty then []
    else
      ((sch.symbols.filter (fun s => !(s.reference.startsWith "_TEMPLATE"))).map
        (fun s => if hasPath then symbolConnections sch wirePts s
                  else symbolFallback wirePts s)).flatten

/-- One component entry of the generated netlist. -/
structure ComponentInfo where
  reference : String
  value : String
  footprint : String
deriving DecidableEq

/-- The result of `generate_netlist`. -/
structure Netlist where
  nets : List (String × List Connection)
  components : List ComponentInfo
deriving DecidableEq

/-- First-occurrence deduplication, standing for the Python `set` of label
texts (whose iteration order is unspecified; no theorem depends on it). -/
def dedupKeepFirst : List String → List String
  | [] => []
  | x :: xs => x :: (dedupKeepFirst xs).filter (· ≠ x)

/-- `ConnectionManager.generate_netlist`: components from all symbols, one
net per label text with a non-empty connection list; `get_net_connections`
is called without a schematic path, so pin matching uses the proximity
fallback. -/
def generateNetlist (sch : Schematic) : Netlist :=
  { components := sch.symbols.map (fun s => ⟨s.reference, s.value, s.footprint⟩),
    nets := (dedupKeepFirst (sch.labels.map (·.text))).filterMap (fun n =>
      let cs := getNetConnections sch n false
      if cs.isEmpty then none else some (n, cs)) }

/-! ## Net-label stub direction (`ConnectionManager.connect_to_net`) -/

/-- Python `round()` on a float: round half to even. -/
def roundHalfEven (q : ℚ) : ℤ :=
  if q - ⌊q⌋ < 1 / 2 then ⌊q⌋
  else if (1 : ℚ) / 2 < q - ⌊q⌋ then ⌊q⌋ + 1
  else if ⌊q⌋ % 2 = 0 then ⌊q⌋ else ⌊q⌋ + 1

/-- `nearest = int(round(angle / 90.0) * 90) % 360`. -/
def nearestCardinal (angle : ℚ) : ℤ :=
  roundHalfEven (angle / 90) * 90 % 360

/-- The `direction_map` lookup of `connect_to_net` with `stub_length = 2.54`
(the `.get` default is the 0-degree direction). -/
def stubDelta (angle : ℚ) : ℚ × ℚ :=
  let nearest := nearestCardinal angle
  if nearest = 0 then (254 / 100, 0)
  else if nearest = 90 then (0, 254 / 100)
  else if nearest = 180 then (-254 / 100, 0)
  else if nearest = 270 then (0, -254 / 100)
  else (254 / 100, 0)

/-- The stub endpoint computed by `connect_to_net` from a resolved pin. -/
def connectStubEnd (info : PinInfo) : ℚ × ℚ :=
  let angle := qfmod info.effectiveAngle 360
  let d := stubDelta angle
  (info.x + d.1, info.y + d.2)

/-- Circular distance between two angles (degrees, both within one turn). -/
def circDist (a b : ℚ) : ℚ := min |a - b| (360 - |a - b|)

/-! ## Real-valued rotation (`PinLocator.rotate_point`)

The float trigonometry of `rotate_point` is modelled over the reals:
`math.radians(d) = d * pi / 180`, then the counter-clockwise rotation
formula; rotation exactly 0 returns the point unchanged without touching
the trigonometric path. -/

/-- `PinLocator.rotate_point` over the reals. -/
noncomputable def rotate_point (x y angleDegrees : ℝ) : ℝ × ℝ :=
  if angleDegrees = 0 then (x, y)
  else
    let angleRad := angleDegrees * Real.pi / 180
    (x * Real.cos angleRad - y * Real.sin angleRad,
     x * Real.sin angleRad + y * Real.cos angleRad)

/-! ## Concrete documents used as witnesses and counterexamples -/

/-- Pin table of a two-pin resistor definition, pin 1 at local offset
`(0, -3.81)`, pin 2 at `(0, 3.81)` (both named `~`). -/
def resistorPins : Pins :=
  [("1", { x := 0, y := -381 / 100, angle := 270, length := 127 / 100,
           name := "~", number := "1", etype := "passive" }),
   ("2", { x := 0, y := 381 / 100, angle := 90, length := 127 / 100,
           name := "~", number := "2", etype := "passive" })]

/-- Pin table of a two-pin capacitor definition, pin 1 at local offset
`(0, -3.81)`. -/
def capacitorPins : Pins :=
  [("1", { x := 0, y := -381 / 100, angle := 270, length := 127 / 100,
           name := "~", number := "1", etype := "passive" }),
   ("2", { x := 0, y := 381 / 100, angle := 90, length := 127 / 100,
           name := "~", number := "2", etype := "passive" })]

/-- The resistor instance of the scenario, placed so that pin 1 resolves to
`(100, 100)`. -/
def symR1 : SymbolInst :=
  { reference := "R1", x := 100, y := 10381 / 100, rotation := 0,
    libId := some "Device:R", value := "10k", footprint := "" }

/-- The capacitor instance of the scenario, placed so that pin 1 resolves to
`(120, 100)`. -/
def symC1 : SymbolInst :=
  { reference := "C1", x := 120, y := 10381 / 100, rotation := 0,
    libId := some "Device:C", value := "100nF", footprint := "" }

/-- The spec's two-pin-net scenario: a wire from `(100,100)` to `(120,100)`,
a resistor placed so that its pin 1 resolves to `(100,100)` and a capacitor
placed so that its pin 1 resolves to `(120,100)`; no labels. -/
def twoPinScenario : Schematic :=
  { symbols := [symR1, symC1],
    labels := [],
    wires := [{ pts := [(100, 100), (120, 100)] }],
    libSymbols := [("Device:R", resistorPins), ("Device:C", capacitorPins)] }

/-- The two-pin-net scenario augmented with a local label `"N"` on the wire
endpoint `(100,100)`. -/
def twoPinScenarioLabelled : Schematic :=
  { twoPinScenario with labels := [{ text := "N", x := 100, y := 100 }] }

/-! ## Helper lemmas -/

theorem hasKey_iff (pins : Pins) (k : String) :
    hasKey pins k = true ↔ ∃ p ∈ pins, p.1 = k := by
  simp [hasKey, List.any_eq_true]

theorem hasKey_eq_false_iff (pins : Pins) (k : String) :
    hasKey pins k = false ↔ ∀ p ∈ pins, p.1 ≠ k := by
  rw [← Bool.not_eq_true, not_iff_comm, hasKey_iff]
  push_neg
  simp

/-- Branch analysis of `findPinKey`: the number match takes precedence. -/
theorem findPinKey_of_hasKey (pins : Pins) (pid : String)
    (h : hasKey pins (normalizePinIdentifier pid) = true) :
    findPinKey pins pid = some (normalizePinIdentifier pid) := by
  simp [findPinKey, h]

/-- Branch analysis of `findPinKey`: the case-insensitive name match fires
when the number match fails. -/
theorem findPinKey_of_nameMatch (pins : Pins) (pid : String) (entry : String × PinData)
    (h : hasKey pins (normalizePinIdentifier pid) = false)
    (hf : pins.find? (fun p => nameMatches (normalizePinIdentifier pid) p.2) = some entry) :
    findPinKey pins pid = some entry.1 := by
  simp [findPinKey, h, hf]

/-- `findPinKey` hits the digit-canonicalization fallback when the first two
matches fail. -/
theorem findPinKey_of_digits (pins : Pins) (pid : String)
    (h : hasKey pins (normalizePinIdentifier pid) = false)
    (hf : pins.find? (fun p => nameMatches (normalizePinIdentifier pid) p.2) = none)
    (hd : pyIsDigit (normalizePinIdentifier pid) = true)
    (hc : hasKey pins (canonicalDigits (normalizePinIdentifier pid)) = true) :
    findPinKey pins pid = some (canonicalDigits (normalizePinIdentifier pid)) := by
  simp [findPinKey, h, hf, hd, hc]

theorem findPinKey_eq_none_iff (pins : Pins) (pid : String) :
    findPinKey pins pid = none ↔
      (∀ p ∈ pins, p.1 ≠ normalizePinIdentifier pid) ∧
      (∀ p ∈ pins, nameMatches (normalizePinIdentifier pid) p.2 = false) ∧
      ¬(pyIsDigit (normalizePinIdentifier pid) = true ∧
        ∃ p ∈ pins, p.1 = canonicalDigits (normalizePinIdentifier pid)) := by
  constructor
  · intro hnone
    have hk : hasKey pins (normalizePinIdentifier pid) = false := by
      by_contra hc
      rw [findPinKey_of_hasKey pins pid (by simpa using hc)] at hnone
      cases hnone
    have hf : pins.find? (fun p => nameMatches (normalizePinIdentifier pid) p.2) = none := by
      rcases hf : pins.find? (fun p => nameMatches (normalizePinIdentifier pid) p.2) with
        _ | entry
      · exact hf
      · rw [findPinKey_of_nameMatch pins pid entry hk hf] at hnone
        cases hnone
    refine ⟨(hasKey_eq_false_iff _ _).mp hk,
      fun p hp => by simpa using List.find?_eq_none.mp hf p hp, ?_⟩
    rintro ⟨hd, hex⟩
    rw [findPinKey_of_digits pins pid hk hf hd ((hasKey_iff _ _).mpr hex)] at hnone
    cases hnone
  · rintro ⟨hkeys, hnames, hdig⟩
    have hk : hasKey pins (normalizePinIdentifier pid) = false :=
      (hasKey_eq_false_iff _ _).mpr hkeys
    have hf : pins.find? (fun p => nameMatches (normalizePinIdentifier pid) p.2) = none :=
      List.find?_eq_none.mpr (by intro p hp; simp [hnames p hp])
    simp only [findPinKey, hk, Bool.false_eq_true, if_false, hf]
    rcases hd : pyIsDigit (normalizePinIdentifier pid) with _ | _
    · simp
    · rcases hc : hasKey pins (canonicalDigits (normalizePinIdentifier pid)) with _ | _
      · simp
      · exact absurd ⟨hd, (hasKey_iff _ _).mp hc⟩ hdig

/-- `findPinKey` only ever returns keys present in the table. -/
theorem findPinKey_hasKey (pins : Pins) (pid k : String)
    (h : findPinKey pins pid = some k) : hasKey pins k = true := by
  rcases hk : hasKey pins (normalizePinIdentifier pid) with _ | _
  · rcases hf : pins.find? (fun p => nameMatches (normalizePinIdentifier pid) p.2) with
      _ | entry
    · rcases hd : pyIsDigit (normalizePinIdentifier pid) with _ | _
      · simp [findPinKey, hk, hf, hd] at h
      · rcases hc : hasKey pins (canonicalDigits (normalizePinIdentifier pid)) with _ | _
        · simp [findPinKey, hk, hf, hd, hc] at h
        · rw [findPinKey_of_digits pins pid hk hf hd hc] at h
          cases h
          exact hc
    · rw [findPinKey_of_nameMatch pins pid entry hk hf] at h
      cases h
      exact (hasKey_iff _ _).mpr ⟨entry, List.mem_of_find?_eq_some hf, rfl⟩
  · rw [findPinKey_of_hasKey pins pid hk] at h
    cases h
    exact hk

/-! ## Claim C3 -/

/-- C3, counterexample: the points `(0,0)` and `(0.4, 0.4)` are treated as
coincident by `points_coincide` although their squared Euclidean distance
`0.32` exceeds the squared tolerance `0.25` — the code tests each axis
separately (Chebyshev), not the Euclidean distance, so the claim "coincidence
holds exactly when the Euclidean distance is below the tolerance" is false. -/
theorem claim_C3_counterexample :
    pointsCoincide (0, 0) (2 / 5, 2 / 5) = true ∧
    tolerance ^ 2 < ((2 : ℚ) / 5 - 0) ^ 2 + ((2 : ℚ) / 5 - 0) ^ 2 := by
  constructor
  · norm_num [pointsCoincide, tolerance, abs_lt]
  · norm_num [tolerance]

/-- C3, amended: for every pair of points compared during net building,
coincidence holds exactly when the Chebyshev distance (the larger of the two
per-axis absolute differences) is strictly below the fixed tolerance `0.5`;
at a Chebyshev distance exactly equal to the tolerance the points are
consistently not coincident (the boundary is exclusive). -/
theorem claim_C3 (p q : ℚ × ℚ) :
    (pointsCoincide p q = true ↔ max |p.1 - q.1| |p.2 - q.2| < tolerance) ∧
    (max |p.1 - q.1| |p.2 - q.2| = tolerance → pointsCoincide p q = false) := by
  constructor
  · simp [pointsCoincide, max_lt_iff]
  · intro h
    have : tolerance ≤ |p.1 - q.1| ∨ tolerance ≤ |p.2 - q.2| :=
      le_max_iff.mp h.ge
    rcases this with h1 | h1 <;>
      simp [pointsCoincide, not_lt.mpr h1]

/-- C3, witness: two points at Chebyshev distance exactly `0.5` are not
coincident, by the amended theorem. -/
theorem claim_C3_witness : pointsCoincide (0, 0) (1 / 2, 0) = false :=
  (claim_C3 (0, 0) (1 / 2, 0)).2 (by norm_num [tolerance])

/-! ## Claim C7 -/

/-- C7, counterexample: on a two-pin table with pin numbers `"1"` and `"2"`,
the identifier `"01"` equals no pin number and (case-insensitively) no pin
name, yet the lookup succeeds via the digit-canonicalization fallback
`str(int(s))`, refuting "an identifier matching neither yields no pin". -/
theorem claim_C7_counterexample :
    findPinKey resistorPins "01" = some "1" ∧
    (resistorPins.map (·.1)).contains "01" = false ∧
    (resistorPins.map (fun p => pyLower p.2.name)).contains (pyLower "01") = false := by
  decide

/-- C7, amended: pin lookup first strips surrounding whitespace from the
identifier; it succeeds when the stripped identifier equals a pin number,
otherwise when it equals the stripped name of some pin case-insensitively
(number match taking precedence, first matching pin in table order),
otherwise when it is an all-digit string whose canonical decimal form
(leading zeros removed) equals a pin number; an identifier matching none of
these yields no pin. -/
theorem claim_C7 (pins : Pins) (pid : String) :
    ((∃ p ∈ pins, p.1 = pyStrip pid) → findPinKey pins pid = some (pyStrip pid)) ∧
    ((∀ p ∈ pins, p.1 ≠ pyStrip pid) →
      ∀ entry, pins.find? (fun p => nameMatches (pyStrip pid) p.2) = some entry →
        findPinKey pins pid = some entry.1) ∧
    ((∀ p ∈ pins, p.1 ≠ pyStrip pid) →
      (∀ p ∈ pins, nameMatches (pyStrip pid) p.2 = false) →
      pyIsDigit (pyStrip pid) = true → (∃ p ∈ pins, p.1 = canonicalDigits (pyStrip pid)) →
        findPinKey pins pid = some (canonicalDigits (pyStrip pid))) ∧
    (findPinKey pins pid = none ↔
      (∀ p ∈ pins, p.1 ≠ pyStrip pid) ∧
      (∀ p ∈ pins, nameMatches (pyStrip pid) p.2 = false) ∧
      ¬(pyIsDigit (pyStrip pid) = true ∧ ∃ p ∈ pins, p.1 = canonicalDigits (pyStrip pid))) := by
  refine ⟨?_, ?_, ?_, findPinKey_eq_none_iff pins pid⟩
  · intro h
    exact findPinKey_of_hasKey pins pid ((hasKey_iff _ _).mpr h)
  · intro h entry hf
    exact findPinKey_of_nameMatch pins pid entry ((hasKey_eq_false_iff _ _).mpr h) hf
  · intro h hn hd hex
    exact findPinKey_of_digits pins pid ((hasKey_eq_false_iff _ _).mpr h)
      (List.find?_eq_none.mpr (by intro p hp; simp [normalizePinIdentifier, hn p hp])) hd
      ((hasKey_iff _ _).mpr hex)

/-- C7, witness: the amended theorem applied to the two-pin resistor table:
the padded identifier `" 2 "` strips to the pin number `"2"`, and `"99"`
matches nothing and yields no pin. -/
theorem claim_C7_witness :
    findPinKey resistorPins " 2 " = some "2" ∧ findPinKey resistorPins "99" = none := by
  constructor
  · have h := (claim_C7 resistorPins " 2 ").1
    have hstrip : pyStrip " 2 " = "2" := by decide
    rw [hstrip] at h
    exact h (by decide)
  · exact (claim_C7 resistorPins "99").2.2.2.mpr (by decide)

/-! ## Claim C9 -/

/-- C9, confirmed: symbol-reference resolution uses the exact reference when
present; otherwise it tries the variant with a trailing underscore appended
(for a non-suffixed input) or removed (for a suffixed input); it fails
exactly when neither the reference nor its variant names an instance. -/
theorem claim_C9 (refs : List String) (r : String) :
    (refs.contains r = true → resolveSymbolReference refs r = some r) ∧
    (refs.contains r = false → endsWithUnderscore r = false →
      refs.contains (r ++ "_") = true → resolveSymbolReference refs r = some (r ++ "_")) ∧
    (refs.contains r = false → endsWithUnderscore r = true →
      refs.contains (pyDropLast r) = true →
      resolveSymbolReference refs r = some (pyDropLast r)) ∧
    (resolveSymbolReference refs r = none ↔
      refs.contains r = false ∧
      refs.contains (if endsWithUnderscore r then pyDropLast r else r ++ "_") = false) := by
  refine ⟨?_, ?_, ?_, ?_⟩
  · intro h
    simp [resolveSymbolReference, (by simpa using h : r ∈ refs)]
  · intro h he hv
    simp [resolveSymbolReference, he, (by simpa using h : r ∉ refs),
      (by simpa using hv : r ++ "_" ∈ refs)]
  · intro h he hv
    simp [resolveSymbolReference, he, (by simpa using h : r ∉ refs),
      (by simpa using hv : pyDropLast r ∈ refs)]
  · rcases h : refs.contains r with _ | _
    · rcases he : endsWithUnderscore r with _ | _
      · rcases hv : refs.contains (r ++ "_") with _ | _
        · simp [resolveSymbolReference, he, (by simpa using h : r ∉ refs),
            (by simpa using hv : r ++ "_" ∉ refs)]
        · simp [resolveSymbolReference, he, (by simpa using h : r ∉ refs),
            (by simpa using hv : r ++ "_" ∈ refs)]
      · rcases hv : refs.contains (pyDropLast r) with _ | _
        · simp [resolveSymbolReference, he, (by simpa using h : r ∉ refs),
            (by simpa using hv : pyDropLast r ∉ refs)]
        · simp [resolveSymbolReference, he, (by simpa using h : r ∉ refs),
            (by simpa using hv : pyDropLast r ∈ refs)]
    · simp [resolveSymbolReference, (by simpa using h : r ∈ refs)]

/-! ## Concrete pin locations of the two-pin scenario -/

theorem pinLoc_R1_1 : getPinLocation twoPinScenario "R1" "1" = some (100, 100) := by
  have hr : resolveSymbolReference ["R1", "C1"] "R1" = some "R1" := by decide
  have hf : findPinKey resistorPins "1" = some "1" := by decide
  have hie : resistorPins.isEmpty = false := rfl
  simp +decide only [getPinLocation, getPinInfo, twoPinScenario, symR1, symC1,
    getSymbolPins, List.find?, List.map, hr, hie, hf, decide_True, decide_False,
    if_true, if_false]
  norm_num [qfmod]

theorem pinLoc_R1_2 : getPinLocation twoPinScenario "R1" "2" = some (100, 10762 / 100) := by
  have hr : resolveSymbolReference ["R1", "C1"] "R1" = some "R1" := by decide
  have hf : findPinKey resistorPins "2" = some "2" := by decide
  have hie : resistorPins.isEmpty = false := rfl
  simp +decide only [getPinLocation, getPinInfo, twoPinScenario, symR1, symC1,
    getSymbolPins, List.find?, List.map, hr, hie, hf, decide_True, decide_False,
    if_true, if_false]
  norm_num [qfmod]

theorem pinLoc_C1_1 : getPinLocation twoPinScenario "C1" "1" = some (120, 100) := by
  have hr : resolveSymbolReference ["R1", "C1"] "C1" = some "C1" := by decide
  have hf : findPinKey capacitorPins "1" = some "1" := by decide
  have hie : capacitorPins.isEmpty = false := rfl
  simp +decide only [getPinLocation, getPinInfo, twoPinScenario, symR1, symC1,
    getSymbolPins, List.find?, List.map, hr, hie, hf, decide_True, decide_False,
    if_true, if_false]
  norm_num [qfmod]

theorem pinLoc_C1_2 : getPinLocation twoPinScenario "C1" "2" = some (120, 10762 / 100) := by
  have hr : resolveSymbolReference ["R1", "C1"] "C1" = some "C1" := by decide
  have hf : findPinKey capacitorPins "2" = some "2" := by decide
  have hie : capacitorPins.isEmpty = false := rfl
  simp +decide only [getPinLocation, getPinInfo, twoPinScenario, symR1, symC1,
    getSymbolPins, List.find?, List.map, hr, hie, hf, decide_True, decide_False,
    if_true, if_false]
  norm_num [qfmod]

/-- Pin resolution ignores labels, so the labelled scenario resolves pins
identically. -/
theorem getPinLocation_labelled (r p : String) :
    getPinLocation twoPinScenarioLabelled r p = getPinLocation twoPinScenario r p := rfl

/-! ## Membership characterization of the net builder -/

theorem mem_netLabelPts (sch : Schematic) (n : String) (lp : ℚ × ℚ) :
    lp ∈ netLabelPts sch n ↔ ∃ l ∈ sch.labels, l.text = n ∧ lp = (l.x, l.y) := by
  simp only [netLabelPts, List.mem_map, List.mem_filter, decide_eq_true_eq]
  constructor
  · rintro ⟨l, ⟨hl, ht⟩, rfl⟩; exact ⟨l, hl, ht, rfl⟩
  · rintro ⟨l, hl, ht, rfl⟩; exact ⟨l, ⟨hl, ht⟩, rfl⟩

theorem wireTouches_iff (sch : Schematic) (n : String) (w : WireNode) :
    wireTouches (netLabelPts sch n) w = true ↔
      ∃ p ∈ w.pts, ∃ l ∈ sch.labels, l.text = n ∧ pointsCoincide p (l.x, l.y) = true := by
  simp only [wireTouches, List.any_eq_true]
  constructor
  · rintro ⟨p, hp, lp, hlp, hcoin⟩
    obtain ⟨l, hl, ht, rfl⟩ := (mem_netLabelPts sch n lp).mp hlp
    exact ⟨p, hp, l, hl, ht, hcoin⟩
  · rintro ⟨p, hp, l, hl, ht, hcoin⟩
    exact ⟨p, hp, (l.x, l.y), (mem_netLabelPts sch n _).mpr ⟨l, hl, ht, rfl⟩, hcoin⟩

theorem mem_connectedWirePts (sch : Schematic) (n : String) (q : ℚ × ℚ) :
    q ∈ connectedWirePts sch n ↔
      ∃ w ∈ sch.wires, wireTouches (netLabelPts sch n) w = true ∧ q ∈ w.pts := by
  simp only [connectedWirePts, List.mem_flatten, List.mem_map, List.mem_filter]
  constructor
  · rintro ⟨pts, ⟨w, ⟨hw, htouch⟩, rfl⟩, hq⟩; exact ⟨w, hw, htouch, hq⟩
  · rintro ⟨w, hw, ht, hq⟩; exact ⟨w.pts, ⟨w, ⟨hw, ht⟩, rfl⟩, hq⟩

theorem mem_symbolConnections (sch : Schematic) (pts : List (ℚ × ℚ))
    (s : SymbolInst) (c : Connection) :
    c ∈ symbolConnections sch pts s ↔
      ∃ libId, s.libId = some libId ∧
      ∃ entry ∈ getSymbolPins sch libId,
      ∃ loc, getPinLocation sch s.reference entry.1 = some loc ∧
        (∃ q ∈ pts, pointsCoincide loc q = true) ∧
        c = ⟨s.reference, entry.1⟩ := by
  rcases hlib : s.libId with _ | libId
  · simp [symbolConnections, hlib]
  · simp only [symbolConnections, hlib, List.mem_filterMap]
    constructor
    · rintro ⟨entry, hmem, hf⟩
      rcases hloc : getPinLocation sch s.reference entry.1 with _ | loc
      · simp only [hloc] at hf
        exact Option.noConfusion hf
      · simp only [hloc] at hf
        rcases hany : pts.any (fun wp => pointsCoincide loc wp) with _ | _
        · simp only [hany, Bool.false_eq_true, if_false] at hf
          exact Option.noConfusion hf
        · simp only [hany] at hf
          rw [if_true] at hf
          cases hf
          exact ⟨libId, rfl, entry, hmem, loc, hloc,
            by simpa [List.any_eq_true] using hany, rfl⟩
    · rintro ⟨libId', hsome, entry, hmem, loc, hloc, hq, rfl⟩
      obtain rfl : libId = libId' := Option.some.inj hsome
      refine ⟨entry, hmem, ?_⟩
      simp only [hloc]
      have hany : pts.any (fun wp => pointsCoincide loc wp) = true := by
        simpa [List.any_eq_true] using hq
      simp only [hany]
      rw [if_true]

/-! ## Claim C2 -/

/-- C2, counterexample: in the spec's two-pin-net scenario (a wire from
`(100,100)` to `(120,100)`, resistor pin 1 resolved at `(100,100)` and
capacitor pin 1 resolved at `(120,100)`, no labels), the generated netlist
contains zero nets instead of the claimed single net with the two pins: the
net builder derives nets only from labels and performs no connected-component
computation over wire/pin coincidence. -/
theorem claim_C2_counterexample :
    getPinLocation twoPinScenario "R1" "1" = some (100, 100) ∧
    getPinLocation twoPinScenario "C1" "1" = some (120, 100) ∧
    (generateNetlist twoPinScenario).nets = [] :=
  ⟨pinLoc_R1_1, pinLoc_C1_1, rfl⟩

/-- C2, amended: the net builder computes no transitive connected components;
for a given net name, a connection `{component, pin}` is reported exactly
when the component is a non-template symbol instance with a `lib_id`, the pin
is listed in that symbol's pin table, the pin resolves to a position, and
that position coincides (per-axis differences below 0.5) with a vertex of a
wire which itself has a vertex coincident with a label carrying the net name
— a single label-to-wire hop, not followed through chains of wires, and
empty when no label carries the name.  In the two-pin scenario augmented
with a label `"N"` at `(100,100)`, the net `"N"` contains exactly the
resistor's pin 1 and the capacitor's pin 1. -/
theorem claim_C2 :
    (∀ (sch : Schematic) (n : String) (c : Connection),
      c ∈ getNetConnections sch n true ↔
        ∃ s ∈ sch.symbols, s.reference.startsWith "_TEMPLATE" = false ∧
          ∃ libId, s.libId = some libId ∧
          ∃ entry ∈ getSymbolPins sch libId,
          ∃ loc, getPinLocation sch s.reference entry.1 = some loc ∧
            (∃ w ∈ sch.wires,
              (∃ p ∈ w.pts, ∃ l ∈ sch.labels, l.text = n ∧
                pointsCoincide p (l.x, l.y) = true) ∧
              ∃ q ∈ w.pts, pointsCoincide loc q = true) ∧
            c = ⟨s.reference, entry.1⟩) ∧
    getNetConnections twoPinScenarioLabelled "N" true =
      [⟨"R1", "1"⟩, ⟨"C1", "1"⟩] := by
  constructor
  · intro sch n c
    constructor
    · intro hmem
      rcases hL : (netLabelPts sch n).isEmpty with _ | _
      · rcases hW : (connectedWirePts sch n).isEmpty with _ | _
        · simp only [getNetConnections, hL, hW, Bool.false_eq_true, if_false,
            List.mem_flatten, List.mem_map, List.mem_filter] at hmem
          obtain ⟨cs, ⟨s, ⟨hs, htempl⟩, rfl⟩, hc⟩ := hmem
          rw [if_true] at hc
          obtain ⟨libId, hsome, entry, hentry, loc, hloc, hq, rfl⟩ :=
            (mem_symbolConnections sch (connectedWirePts sch n) s _).mp hc
          obtain ⟨q, hqmem, hqc⟩ := hq
          obtain ⟨w, hw, htouch, hqw⟩ := (mem_connectedWirePts sch n q).mp hqmem
          obtain ⟨p, hp, l, hl, ht, hpc⟩ := (wireTouches_iff sch n w).mp htouch
          exact ⟨s, hs, by simpa using htempl, libId, hsome, entry, hentry, loc, hloc,
            ⟨w, hw, ⟨p, hp, l, hl, ht, hpc⟩, q, hqw, hqc⟩, rfl⟩
        · simp [getNetConnections, hL, hW] at hmem
      · simp [getNetConnections, hL] at hmem
    · rintro ⟨s, hs, htempl, libId, hsome, entry, hentry, loc, hloc,
        ⟨w, hw, ⟨p, hp, l, hl, ht, hpc⟩, q, hqw, hqc⟩, rfl⟩
      have hLmem : (l.x, l.y) ∈ netLabelPts sch n :=
        (mem_netLabelPts sch n _).mpr ⟨l, hl, ht, rfl⟩
      have hL : (netLabelPts sch n).isEmpty = false := by
        rcases h : netLabelPts sch n with _ | _
        · rw [h] at hLmem; cases hLmem
        · rfl
      have htouch : wireTouches (netLabelPts sch n) w = true :=
        (wireTouches_iff sch n w).mpr ⟨p, hp, l, hl, ht, hpc⟩
      have hqmem : q ∈ connectedWirePts sch n :=
        (mem_connectedWirePts sch n q).mpr ⟨w, hw, htouch, hqw⟩
      have hW : (connectedWirePts sch n).isEmpty = false := by
        rcases h : connectedWirePts sch n with _ | _
        · rw [h] at hqmem; cases hqmem
        · rfl
      simp only [getNetConnections, hL, hW, Bool.false_eq_true, if_false,
        List.mem_flatten, List.mem_map, List.mem_filter]
      refine ⟨symbolConnections sch (connectedWirePts sch n) s,
        ⟨s, ⟨hs, by simpa using htempl⟩, by rw [if_true]⟩, ?_⟩
      exact (mem_symbolConnections sch (connectedWirePts sch n) s _).mpr
        ⟨libId, hsome, entry, hentry, loc, hloc, ⟨q, hqmem, hqc⟩, rfl⟩
  · have h100 : pointsCoincide ((100 : ℚ), (100 : ℚ)) (100, 100) = true := by
      norm_num [pointsCoincide, tolerance]
    have h120 : pointsCoincide ((120 : ℚ), (100 : ℚ)) (120, 100) = true := by
      norm_num [pointsCoincide, tolerance]
    have hF1 : pointsCoincide ((120 : ℚ), (100 : ℚ)) (100, 100) = false := by
      norm_num [pointsCoincide, tolerance, abs_lt]
    have hF2 : pointsCoincide ((100 : ℚ), (100 : ℚ)) (120, 100) = false := by
      norm_num [pointsCoincide, tolerance, abs_lt]
    have hF3 : pointsCoincide ((100 : ℚ), (10762 : ℚ) / 100) (100, 100) = false := by
      norm_num [pointsCoincide, tolerance, abs_lt]
    have hF4 : pointsCoincide ((100 : ℚ), (10762 : ℚ) / 100) (120, 100) = false := by
      norm_num [pointsCoincide, tolerance, abs_lt]
    have hF5 : pointsCoincide ((120 : ℚ), (10762 : ℚ) / 100) (100, 100) = false := by
      norm_num [pointsCoincide, tolerance, abs_lt]
    have hF6 : pointsCoincide ((120 : ℚ), (10762 : ℚ) / 100) (120, 100) = false := by
      norm_num [pointsCoincide, tolerance, abs_lt]
    have hl : netLabelPts twoPinScenarioLabelled "N" = [(100, 100)] := rfl
    have hcw : connectedWirePts twoPinScenarioLabelled "N" = [(100, 100), (120, 100)] := by
      simp only [connectedWirePts, hl, twoPinScenarioLabelled, twoPinScenario,
        wireTouches, List.filter, List.any, h100, Bool.or_true, Bool.true_or,
        List.map, List.flatten]
      rfl
    have hRp1 := (getPinLocation_labelled "R1" "1").trans pinLoc_R1_1
    have hRp2 := (getPinLocation_labelled "R1" "2").trans pinLoc_R1_2
    have hCp1 := (getPinLocation_labelled "C1" "1").trans pinLoc_C1_1
    have hCp2 := (getPinLocation_labelled "C1" "2").trans pinLoc_C1_2
    have hL : (netLabelPts twoPinScenarioLabelled "N").isEmpty = false := by rw [hl]; rfl
    have hW : (connectedWirePts twoPinScenarioLabelled "N").isEmpty = false := by
      rw [hcw]; rfl
    have hsymbols : twoPinScenarioLabelled.symbols = [symR1, symC1] := rfl
    have hpinsR : getSymbolPins twoPinScenarioLabelled "Device:R" = resistorPins := rfl
    have hpinsC : getSymbolPins twoPinScenarioLabelled "Device:C" = capacitorPins := rfl
    simp only [getNetConnections, hL, hW, Bool.false_eq_true, if_false, hcw, hsymbols]
    simp +decide only [List.filter, symR1, symC1, decide_True, decide_False,
      Bool.not_false, Bool.not_true, if_true, if_false, List.map, List.flatten,
      symbolConnections]
    simp only [hpinsR, hpinsC, resistorPins, capacitorPins, List.filterMap,
      hRp1, hRp2, hCp1, hCp2, List.any, h100, h120, hF1, hF2, hF3, hF4, hF5, hF6,
      Bool.false_or, Bool.or_false, Bool.true_or, Bool.or_true, if_true, if_false,
      Bool.false_eq_true]
    rfl

/-- C6, counterexample: the identifier `"02"` matches neither a pin number
(`"1"`, `"2"`) nor a pin name (both `"~"`) of the resolved resistor symbol,
yet pin resolution succeeds (returning the position of pin `"2"`) through the
digit-canonicalization fallback — refuting "whenever a requested pin
identifier matches neither a pin number nor a pin name, pin resolution
fails". -/
theorem claim_C6_counterexample :
    getPinLocation twoPinScenario "R1" "02" = some (100, 10762 / 100) ∧
    (resistorPins.map (·.1)).contains "02" = false ∧
    (resistorPins.map (fun p => pyLower p.2.name)).contains (pyLower "02") = false := by
  refine ⟨?_, by decide, by decide⟩
  have hr : resolveSymbolReference ["R1", "C1"] "R1" = some "R1" := by decide
  have hf : findPinKey resistorPins "02" = some "2" := by decide
  have hie : resistorPins.isEmpty = false := rfl
  simp +decide only [getPinLocation, getPinInfo, twoPinScenario, symR1, symC1,
    getSymbolPins, List.find?, List.map, hr, hie, hf, decide_True, decide_False,
    if_true, if_false]
  norm_num [qfmod]

/-- C6, amended: whenever the requested pin identifier (after stripping
surrounding whitespace) matches neither a pin number, nor case-insensitively
a pin name, nor — for an all-digit identifier — a pin number after decimal
canonicalization, pin resolution fails and the reported error carries the
attempted identifier, the complete list of pin numbers and the complete list
of non-empty pin names of the resolved symbol. -/
theorem claim_C6 (sch : Schematic) (symRef pid resolvedRef : String)
    (sym : SymbolInst) (libId : String)
    (h1 : resolveSymbolReference (sch.symbols.map (·.reference)) symRef = some resolvedRef)
    (h2 : sch.symbols.find? (fun s => s.reference = resolvedRef) = some sym)
    (h3 : sym.libId = some libId)
    (h4 : getSymbolPins sch libId ≠ [])
    (h5 : ∀ p ∈ getSymbolPins sch libId, p.1 ≠ pyStrip pid)
    (h6 : ∀ p ∈ getSymbolPins sch libId, nameMatches (pyStrip pid) p.2 = false)
    (h7 : ¬(pyIsDigit (pyStrip pid) = true ∧
            ∃ p ∈ getSymbolPins sch libId, p.1 = canonicalDigits (pyStrip pid))) :
    getPinInfo sch symRef pid = .error (.pinNotFound pid
      ((getSymbolPins sch libId).map (·.1))
      (((getSymbolPins sch libId).map (fun p => p.2.name)).filter (· ≠ ""))) := by
  have hnone : findPinKey (getSymbolPins sch libId) pid = none :=
    (findPinKey_eq_none_iff _ _).mpr ⟨h5, h6, h7⟩
  have hempty : (getSymbolPins sch libId).isEmpty = false := by
    rcases h : getSymbolPins sch libId with _ | _
    · exact absurd h h4
    · rfl
  simp only [getPinInfo, h1, h2, h3, hempty, hnone, Bool.false_eq_true, if_false]

/-- C6, witness: requesting pin `"99"` on the two-pin resistor instance fails
and reports the attempted identifier together with the pin numbers
`["1", "2"]` and the pin names `["~", "~"]`. -/
theorem claim_C6_witness :
    getPinInfo twoPinScenario "R1" "99" =
      .error (.pinNotFound "99" ["1", "2"] ["~", "~"]) := by
  have h := claim_C6 twoPinScenario "R1" "99" "R1"
    { reference := "R1", x := 100, y := 10381 / 100, rotation := 0,
      libId := some "Device:R", value := "10k", footprint := "" } "Device:R"
    (by decide) rfl rfl
    (by rw [show getSymbolPins twoPinScenario "Device:R" = resistorPins from rfl]
        decide)
    (by rw [show getSymbolPins twoPinScenario "Device:R" = resistorPins from rfl]
        decide)
    (by rw [show getSymbolPins twoPinScenario "Device:R" = resistorPins from rfl]
        decide)
    (by rw [show getSymbolPins twoPinScenario "Device:R" = resistorPins from rfl]
        decide)
  rw [h, show getSymbolPins twoPinScenario "Device:R" = resistorPins from rfl]
  rfl

/-! ## Rounding and circular-distance lemmas for the stub direction -/

theorem roundHalfEven_abs_le (q : ℚ) : |q - (roundHalfEven q : ℚ)| ≤ 1 / 2 := by
  have h0 : (⌊q⌋ : ℚ) ≤ q := Int.floor_le q
  have h1 : q - ⌊q⌋ < 1 := by
    have := Int.lt_floor_add_one q
    linarith
  rw [roundHalfEven]
  split
  case isTrue h =>
    rw [abs_of_nonneg (by linarith)]
    linarith
  case isFalse h =>
    split
    case isTrue h2 =>
      push_cast
      rw [abs_of_nonpos (by linarith)]
      linarith
    case isFalse h2 =>
      have heq : q - ⌊q⌋ = 1 / 2 := le_antisymm (not_lt.mp h2) (not_lt.mp h)
      split
      · rw [abs_of_nonneg (by linarith)]
        linarith
      · push_cast
        rw [abs_of_nonpos (by linarith)]
        linarith

theorem qfmod_eq_fract (a b : ℚ) (hb : b ≠ 0) : qfmod a b = b * Int.fract (a / b) := by
  rw [qfmod, Int.fract]
  field_simp

theorem qfmod_range (a b : ℚ) (hb : 0 < b) : 0 ≤ qfmod a b ∧ qfmod a b < b := by
  rw [qfmod_eq_fract a b hb.ne']
  constructor
  · exact mul_nonneg hb.le (Int.fract_nonneg _)
  · calc b * Int.fract (a / b) < b * 1 :=
          (mul_lt_mul_left hb).mpr (Int.fract_lt_one _)
      _ = b := mul_one b

theorem circDist_le_of {a c c' : ℚ} (hc : circDist a c ≤ 45)
    (h1 : 45 ≤ |a - c'|) (h2 : |a - c'| ≤ 315) : circDist a c ≤ circDist a c' := by
  have : (45 : ℚ) ≤ circDist a c' := le_min h1 (by linarith)
  linarith

/-! ## Claim C8 -/

/-- C8, confirmed: the effective outward angle reported by `get_pin_info`
equals `(pin.angle + instance rotation) mod 360`; the float modulo keeps
angles in `[0, 360)`; and `connect_to_net` directs the net-label wire stub
along `int(round(angle/90)*90) % 360`, which is one of the four cardinal
directions and is nearest to the effective angle in circular distance (ties
at 45° from two cardinals resolved by round-half-to-even). -/
theorem claim_C8 :
    (∀ (sch : Schematic) (r p : String) (info : PinInfo),
      getPinInfo sch r p = .ok info →
      info.effectiveAngle = qfmod (info.pinAngle + info.symbolRotation) 360) ∧
    (∀ a : ℚ, 0 ≤ qfmod a 360 ∧ qfmod a 360 < 360) ∧
    (∀ a : ℚ, 0 ≤ a → a < 360 →
      (nearestCardinal a = 0 ∨ nearestCardinal a = 90 ∨ nearestCardinal a = 180 ∨
        nearestCardinal a = 270) ∧
      (circDist a (nearestCardinal a : ℚ) ≤ circDist a 0 ∧
       circDist a (nearestCardinal a : ℚ) ≤ circDist a 90 ∧
       circDist a (nearestCardinal a : ℚ) ≤ circDist a 180 ∧
       circDist a (nearestCardinal a : ℚ) ≤ circDist a 270) ∧
      ((nearestCardinal a = 0 → stubDelta a = (254 / 100, 0)) ∧
       (nearestCardinal a = 90 → stubDelta a = (0, 254 / 100)) ∧
       (nearestCardinal a = 180 → stubDelta a = (-254 / 100, 0)) ∧
       (nearestCardinal a = 270 → stubDelta a = (0, -254 / 100)))) := by
  refine ⟨?_, fun a => qfmod_range a 360 (by norm_num), ?_⟩
  · intro sch r p info h
    rcases h1 : resolveSymbolReference (sch.symbols.map (·.reference)) r with _ | resolved
    · simp only [getPinInfo, h1] at h
      exact Except.noConfusion h
    · rcases h2 : sch.symbols.find? (fun s => s.reference = resolved) with _ | sym
      · simp only [getPinInfo, h1, h2] at h
        exact Except.noConfusion h
      · rcases h3 : sym.libId with _ | libId
        · simp only [getPinInfo, h1, h2, h3] at h
          exact Except.noConfusion h
        · rcases hie : (getSymbolPins sch libId).isEmpty with _ | _
          · rcases h4 : findPinKey (getSymbolPins sch libId) p with _ | k
            · simp only [getPinInfo, h1, h2, h3, hie, h4, Bool.false_eq_true,
                if_false] at h
              exact Except.noConfusion h
            · rcases h5 : (getSymbolPins sch libId).find? (fun q => q.1 = k) with _ | entry
              · simp only [getPinInfo, h1, h2, h3, hie, h4, h5, Bool.false_eq_true,
                  if_false] at h
                exact Except.noConfusion h
              · simp only [getPinInfo, h1, h2, h3, hie, h4, h5, Bool.false_eq_true,
                  if_false] at h
                cases h
                rfl
          · simp only [getPinInfo, h1, h2, h3, hie, if_true] at h
            exact Except.noConfusion h
  · intro a h0 h1
    have hb := roundHalfEven_abs_le (a / 90)
    generalize hk : roundHalfEven (a / 90) = k at hb
    have habs : |a - 90 * (k : ℚ)| ≤ 45 := by
      have heq : a - 90 * (k : ℚ) = 90 * (a / 90 - k) := by ring
      rw [heq, abs_mul, abs_of_pos (by norm_num : (0 : ℚ) < 90)]
      linarith [hb, abs_nonneg (a / 90 - (k : ℚ))]
    obtain ⟨hal, har⟩ := abs_le.mp habs
    have hk0 : 0 ≤ k := by
      by_contra hneg
      push_neg at hneg
      have hle : k ≤ -1 := by omega
      have : (k : ℚ) ≤ -1 := by exact_mod_cast hle
      linarith
    have hk4 : k ≤ 4 := by
      by_contra hgt
      push_neg at hgt
      have hge : (5 : ℤ) ≤ k := by omega
      have : (5 : ℚ) ≤ (k : ℚ) := by exact_mod_cast hge
      linarith
    interval_cases k
    · -- k = 0 : nearest 0, a ≤ 45
      have hv : nearestCardinal a = 0 := by rw [nearestCardinal, hk]; decide
      push_cast at hal har
      have hmin : circDist a ((nearestCardinal a : ℤ) : ℚ) ≤ 45 := by
        rw [hv]
        push_cast
        refine le_trans (min_le_left _ _) ?_
        rw [abs_of_nonneg (by linarith)]
        linarith
      refine ⟨Or.inl hv, ⟨?_, ?_, ?_, ?_⟩, ?_, ?_, ?_, ?_⟩
      · rw [hv]; push_cast; exact le_refl _
      · exact circDist_le_of hmin (le_abs.mpr (Or.inr (by linarith)))
          (abs_le.mpr ⟨by linarith, by linarith⟩)
      · exact circDist_le_of hmin (le_abs.mpr (Or.inr (by linarith)))
          (abs_le.mpr ⟨by linarith, by linarith⟩)
      · exact circDist_le_of hmin (le_abs.mpr (Or.inr (by linarith)))
          (abs_le.mpr ⟨by linarith, by linarith⟩)
      · intro _; simp [stubDelta, hv]
      · intro hc; rw [hv] at hc; exact absurd hc (by decide)
      · intro hc; rw [hv] at hc; exact absurd hc (by decide)
      · intro hc; rw [hv] at hc; exact absurd hc (by decide)
    · -- k = 1 : nearest 90, a ∈ [45, 135]
      have hv : nearestCardinal a = 90 := by rw [nearestCardinal, hk]; decide
      push_cast at hal har
      have hmin : circDist a ((nearestCardinal a : ℤ) : ℚ) ≤ 45 := by
        rw [hv]
        push_cast
        refine le_trans (min_le_left _ _) ?_
        exact abs_le.mpr ⟨by linarith, by linarith⟩
      refine ⟨Or.inr (Or.inl hv), ⟨?_, ?_, ?_, ?_⟩, ?_, ?_, ?_, ?_⟩
      · exact circDist_le_of hmin (le_abs.mpr (Or.inl (by linarith)))
          (abs_le.mpr ⟨by linarith, by linarith⟩)
      · rw [hv]; push_cast; exact le_refl _
      · exact circDist_le_of hmin (le_abs.mpr (Or.inr (by linarith)))
          (abs_le.mpr ⟨by linarith, by linarith⟩)
      · exact circDist_le_of hmin (le_abs.mpr (Or.inr (by linarith)))
          (abs_le.mpr ⟨by linarith, by linarith⟩)
      · intro hc; rw [hv] at hc; exact absurd hc (by decide)
      · intro _; simp [stubDelta, hv]
      · intro hc; rw [hv] at hc; exact absurd hc (by decide)
      · intro hc; rw [hv] at hc; exact absurd hc (by decide)
    · -- k = 2 : nearest 180, a ∈ [135, 225]
      have hv : nearestCardinal a = 180 := by rw [nearestCardinal, hk]; decide
      push_cast at hal har
      have hmin : circDist a ((nearestCardinal a : ℤ) : ℚ) ≤ 45 := by
        rw [hv]
        push_cast
        refine le_trans (min_le_left _ _) ?_
        exact abs_le.mpr ⟨by linarith, by linarith⟩
      refine ⟨Or.inr (Or.inr (Or.inl hv)), ⟨?_, ?_, ?_, ?_⟩, ?_, ?_, ?_, ?_⟩
      · exact circDist_le_of hmin (le_abs.mpr (Or.inl (by linarith)))
          (abs_le.mpr ⟨by linarith, by linarith⟩)
      · exact circDist_le_of hmin (le_abs.mpr (Or.inl (by linarith)))
          (abs_le.mpr ⟨by linarith, by linarith⟩)
      · rw [hv]; push_cast; exact le_refl _
      · exact circDist_le_of hmin (le_abs.mpr (Or.inr (by linarith)))
          (abs_le.mpr ⟨by linarith, by linarith⟩)
      · intro hc; rw [hv] at hc; exact absurd hc (by decide)
      · intro hc; rw [hv] at hc; exact absurd hc (by decide)
      · intro _; simp [stubDelta, hv]
      · intro hc; rw [hv] at hc; exact absurd hc (by decide)
    · -- k = 3 : nearest 270, a ∈ [225, 315]
      have hv : nearestCardinal a = 270 := by rw [nearestCardinal, hk]; decide
      push_cast at hal har
      have hmin : circDist a ((nearestCardinal a : ℤ) : ℚ) ≤ 45 := by
        rw [hv]
        push_cast
        refine le_trans (min_le_left _ _) ?_
        exact abs_le.mpr ⟨by linarith, by linarith⟩
      refine ⟨Or.inr (Or.inr (Or.inr hv)), ⟨?_, ?_, ?_, ?_⟩, ?_, ?_, ?_, ?_⟩
      · exact circDist_le_of hmin (le_abs.mpr (Or.inl (by linarith)))
          (abs_le.mpr ⟨by linarith, by linarith⟩)
      · exact circDist_le_of hmin (le_abs.mpr (Or.inl (by linarith)))
          (abs_le.mpr ⟨by linarith, by linarith⟩)
      · exact circDist_le_of hmin (le_abs.mpr (Or.inl (by linarith)))
          (abs_le.mpr ⟨by linarith, by linarith⟩)
      · rw [hv]; push_cast; exact le_refl _
      · intro hc; rw [hv] at hc; exact absurd hc (by decide)
      · intro hc; rw [hv] at hc; exact absurd hc (by decide)
      · intro hc; rw [hv] at hc; exact absurd hc (by decide)
      · intro _; simp [stubDelta, hv]
    · -- k = 4 : nearest 0 after wrap, a ∈ [315, 360)
      have hv : nearestCardinal a = 0 := by rw [nearestCardinal, hk]; decide
      push_cast at hal har
      have hmin : circDist a ((nearestCardinal a : ℤ) : ℚ) ≤ 45 := by
        rw [hv]
        push_cast
        refine le_trans (min_le_right _ _) ?_
        rw [abs_of_nonneg (by linarith)]
        linarith
      refine ⟨Or.inl hv, ⟨?_, ?_, ?_, ?_⟩, ?_, ?_, ?_, ?_⟩
      · rw [hv]; push_cast; exact le_refl _
      · exact circDist_le_of hmin (le_abs.mpr (Or.inl (by linarith)))
          (abs_le.mpr ⟨by linarith, by linarith⟩)
      · exact circDist_le_of hmin (le_abs.mpr (Or.inl (by linarith)))
          (abs_le.mpr ⟨by linarith, by linarith⟩)
      · exact circDist_le_of hmin (le_abs.mpr (Or.inl (by linarith)))
          (abs_le.mpr ⟨by linarith, by linarith⟩)
      · intro _; simp [stubDelta, hv]
      · intro hc; rw [hv] at hc; exact absurd hc (by decide)
      · intro hc; rw [hv] at hc; exact absurd hc (by decide)
      · intro hc; rw [hv] at hc; exact absurd hc (by decide)

/-- C8, witness: at effective angle 50° the selected cardinal is 90, which is
nearest in circular distance, and the stub runs along `(0, 2.54)`; the
effective-angle equation holds for the resolved pin 1 of the scenario
resistor (`270 = (270 + 0) mod 360`). -/
theorem claim_C8_witness :
    ((nearestCardinal 50 = 0 ∨ nearestCardinal 50 = 90 ∨ nearestCardinal 50 = 180 ∨
        nearestCardinal 50 = 270) ∧
      (circDist 50 (nearestCardinal 50 : ℚ) ≤ circDist 50 0 ∧
       circDist 50 (nearestCardinal 50 : ℚ) ≤ circDist 50 90 ∧
       circDist 50 (nearestCardinal 50 : ℚ) ≤ circDist 50 180 ∧
       circDist 50 (nearestCardinal 50 : ℚ) ≤ circDist 50 270) ∧
      ((nearestCardinal 50 = 0 → stubDelta 50 = (254 / 100, 0)) ∧
       (nearestCardinal 50 = 90 → stubDelta 50 = (0, 254 / 100)) ∧
       (nearestCardinal 50 = 180 → stubDelta 50 = (-254 / 100, 0)) ∧
       (nearestCardinal 50 = 270 → stubDelta 50 = (0, -254 / 100)))) ∧
    (270 : ℚ) = qfmod (270 + 0) 360 := by
  constructor
  · exact claim_C8.2.2 50 (by norm_num) (by norm_num)
  · have h : getPinInfo twoPinScenario "R1" "1" =
        .ok { x := 100, y := 100, symbolReference := "R1", pinKey := "1", pinName := "~",
              pinAngle := 270, symbolRotation := 0, effectiveAngle := 270 } := by
      have hr : resolveSymbolReference ["R1", "C1"] "R1" = some "R1" := by decide
      have hf : findPinKey resistorPins "1" = some "1" := by decide
      have hie : resistorPins.isEmpty = false := rfl
      simp +decide only [getPinInfo, twoPinScenario, symR1, symC1,
        getSymbolPins, List.find?, List.map, hr, hie, hf, decide_True, decide_False,
        if_true, if_false]
      norm_num [qfmod]
    exact claim_C8.1 twoPinScenario "R1" "1" _ h

/-! ## Claim C5 -/

/-- C5, confirmed: `rotate_point` returns the offset unchanged at rotation
exactly 0 (taking the early-return branch, so no trigonometry is evaluated);
for every rotation the result equals the standard counter-clockwise rotation
`(px·cosθ − py·sinθ, px·sinθ + py·cosθ)` (angle in degrees); the absolute
pin position computed by `get_pin_info` is the instance position plus the
rotated definition-relative offset; and the offset `(2.54, 0)` maps within
`1e-6` to `(2.54, 0)`, `(0, 2.54)`, `(−2.54, 0)`, `(0, −2.54)` at rotations
0°, 90°, 180°, 270°. -/
theorem claim_C5 :
    (∀ x y : ℝ, rotate_point x y 0 = (x, y)) ∧
    (∀ x y θ : ℝ, rotate_point x y θ =
      (x * Real.cos (θ * Real.pi / 180) - y * Real.sin (θ * Real.pi / 180),
       x * Real.sin (θ * Real.pi / 180) + y * Real.cos (θ * Real.pi / 180))) ∧
    (∀ (sch : Schematic) (r p : String) (info : PinInfo),
      getPinInfo sch r p = .ok info →
      ∃ s ∈ sch.symbols, ∃ libId, s.libId = some libId ∧
        ∃ entry ∈ getSymbolPins sch libId,
          s.reference = info.symbolReference ∧ entry.1 = info.pinKey ∧
          (info.x, info.y) = (s.x + (rotatePointQ entry.2.x entry.2.y s.rotation).1,
            s.y + (rotatePointQ entry.2.x entry.2.y s.rotation).2)) ∧
    (|(rotate_point 2.54 0 90).1| ≤ 1 / 1000000 ∧
     |(rotate_point 2.54 0 90).2 - 2.54| ≤ 1 / 1000000) ∧
    (|(rotate_point 2.54 0 180).1 + 2.54| ≤ 1 / 1000000 ∧
     |(rotate_point 2.54 0 180).2| ≤ 1 / 1000000) ∧
    (|(rotate_point 2.54 0 270).1| ≤ 1 / 1000000 ∧
     |(rotate_point 2.54 0 270).2 + 2.54| ≤ 1 / 1000000) := by
  have h90 : (90 : ℝ) * Real.pi / 180 = Real.pi / 2 := by ring
  have h180 : (180 : ℝ) * Real.pi / 180 = Real.pi := by ring
  have h270 : (270 : ℝ) * Real.pi / 180 = Real.pi + Real.pi / 2 := by ring
  have hc270 : Real.cos (Real.pi + Real.pi / 2) = 0 := by
    rw [Real.cos_add, Real.cos_pi, Real.sin_pi, Real.cos_pi_div_two]
    ring
  have hs270 : Real.sin (Real.pi + Real.pi / 2) = -1 := by
    rw [Real.sin_add, Real.cos_pi, Real.sin_pi, Real.sin_pi_div_two]
    ring
  refine ⟨?_, ?_, ?_, ?_, ?_, ?_⟩
  · intro x y
    simp [rotate_point]
  · intro x y θ
    by_cases hθ : θ = 0
    · subst hθ
      simp [rotate_point]
    · simp only [rotate_point, if_neg hθ]
  · intro sch r p info h
    rcases h1 : resolveSymbolReference (sch.symbols.map (·.reference)) r with _ | resolved
    · simp only [getPinInfo, h1] at h
      exact Except.noConfusion h
    · rcases h2 : sch.symbols.find? (fun s => s.reference = resolved) with _ | sym
      · simp only [getPinInfo, h1, h2] at h
        exact Except.noConfusion h
      · rcases h3 : sym.libId with _ | libId
        · simp only [getPinInfo, h1, h2, h3] at h
          exact Except.noConfusion h
        · rcases hie : (getSymbolPins sch libId).isEmpty with _ | _
          · rcases h4 : findPinKey (getSymbolPins sch libId) p with _ | k
            · simp only [getPinInfo, h1, h2, h3, hie, h4, Bool.false_eq_true,
                if_false] at h
              exact Except.noConfusion h
            · rcases h5 : (getSymbolPins sch libId).find? (fun q => q.1 = k) with _ | entry
              · simp only [getPinInfo, h1, h2, h3, hie, h4, h5, Bool.false_eq_true,
                  if_false] at h
                exact Except.noConfusion h
              · simp only [getPinInfo, h1, h2, h3, hie, h4, h5, Bool.false_eq_true,
                  if_false] at h
                cases h
                have hre : sym.reference = resolved := by
                  simpa using List.find?_some h2
                have hek : entry.1 = k := by
                  simpa using List.find?_some h5
                refine ⟨sym, List.mem_of_find?_eq_some h2, libId, h3, entry,
                  List.mem_of_find?_eq_some h5, hre, hek, ?_⟩
                by_cases hrot : sym.rotation = 0
                · simp [hrot, rotatePointQ]
                · simp [if_neg hrot]
          · simp only [getPinInfo, h1, h2, h3, hie, if_true] at h
            exact Except.noConfusion h
  · simp only [rotate_point, if_neg (by norm_num : (90 : ℝ) ≠ 0), h90,
      Real.cos_pi_div_two, Real.sin_pi_div_two]
    norm_num
  · simp only [rotate_point, if_neg (by norm_num : (180 : ℝ) ≠ 0), h180,
      Real.cos_pi, Real.sin_pi]
    norm_num
  · simp only [rotate_point, if_neg (by norm_num : (270 : ℝ) ≠ 0), h270, hc270, hs270]
    norm_num

/-- C5, witness: the third conjunct applied to the resolved pin 1 of the
scenario resistor: its absolute position `(100, 100)` is the instance
position plus the (trivially) rotated offset. -/
theorem claim_C5_witness :
    ∃ s ∈ twoPinScenario.symbols, ∃ libId, s.libId = some libId ∧
      ∃ entry ∈ getSymbolPins twoPinScenario libId,
        s.reference = "R1" ∧ entry.1 = "1" ∧
        ((100 : ℚ), (100 : ℚ)) = (s.x + (rotatePointQ entry.2.x entry.2.y s.rotation).1,
          s.y + (rotatePointQ entry.2.x entry.2.y s.rotation).2) := by
  have h : getPinInfo twoPinScenario "R1" "1" =
      .ok { x := 100, y := 100, symbolReference := "R1", pinKey := "1", pinName := "~",
            pinAngle := 270, symbolRotation := 0, effectiveAngle := 270 } := by
    have hr : resolveSymbolReference ["R1", "C1"] "R1" = some "R1" := by decide
    have hf : findPinKey resistorPins "1" = some "1" := by decide
    have hie : resistorPins.isEmpty = false := rfl
    simp +decide only [getPinInfo, twoPinScenario, symR1, symC1,
      getSymbolPins, List.find?, List.map, hr, hie, hf, decide_True, decide_False,
      if_true, if_false]
    norm_num [qfmod]
  exact claim_C5.2.2.1 twoPinScenario "R1" "1" _ h

/-! ## Claim C10 -/

/-- C10, confirmed: every structural insertion edit is atomic with respect to
the document text: a polyline with fewer than 2 points is rejected before the
file is even read, a parsed document without a top-level `sheet_instances`
item makes every insertion return failure with the text byte-for-byte
unchanged, and the file content is replaced (by the re-serialized document
with the new element inserted) only on the success path. -/
theorem claim_C10 :
    (∀ (text : String) (points : List (Int × Int)) (u : String),
      points.length < 2 → addPolylineWire text points u = (false, text)) ∧
    (∀ (text : String) (items : List SExpr),
      loads text = some (.list items) →
      pyFindIdx (isTagged "sheet_instances") items = none →
      (∀ (x1 y1 x2 y2 : Int) (u : String), addWire text x1 y1 x2 y2 u = (false, text)) ∧
      (∀ (lt lb : String) (x y o : Int) (u : String),
        addLabel text lt lb x y o u = (false, text)) ∧
      (∀ (x y d : Int) (u : String), addJunction text x y d u = (false, text)) ∧
      (∀ (x y : Int) (u : String), addNoConnect text x y u = (false, text)) ∧
      (∀ (points : List (Int × Int)) (u : String), 2 ≤ points.length →
        addPolylineWire text points u = (false, text))) ∧
    (∀ (text : String) (items : List SExpr) (i : Nat),
      loads text = some (.list items) →
      pyFindIdx (isTagged "sheet_instances") items = some i →
      ∀ (x1 y1 x2 y2 : Int) (u : String),
        addWire text x1 y1 x2 y2 u =
          (true, dumps (.list (pyInsert items i (wireSexp x1 y1 x2 y2 0 "default" u))))) := by
  refine ⟨?_, ?_, ?_⟩
  · intro text points u h
    rw [addPolylineWire, if_pos h]
  · intro text items hload hidx
    refine ⟨?_, ?_, ?_, ?_, ?_⟩
    · intro x1 y1 x2 y2 u
      simp only [addWire, insertBeforeSheetInstances, hload, hidx]
    · intro lt lb x y o u
      simp only [addLabel, insertBeforeSheetInstances, hload, hidx]
    · intro x y d u
      simp only [addJunction, insertBeforeSheetInstances, hload, hidx]
    · intro x y u
      simp only [addNoConnect, insertBeforeSheetInstances, hload, hidx]
    · intro points u h
      rw [addPolylineWire, if_neg (not_lt.mpr h)]
      simp only [insertBeforeSheetInstances, hload, hidx]
  · intro text items i hload hidx x1 y1 x2 y2 u
    simp only [addWire, insertBeforeSheetInstances, hload, hidx]

/-- C10, witness: a one-point polyline is rejected with the text unchanged, a
document without `sheet_instances` rejects a wire insertion with the text
unchanged, and a document with the section accepts it. -/
theorem claim_C10_witness :
    addPolylineWire "(kicad_sch)" [(0, 0)] "u" = (false, "(kicad_sch)") ∧
    addWire "(kicad_sch (lib_symbols))" 1 2 3 4 "u" =
      (false, "(kicad_sch (lib_symbols))") ∧
    (addWire "(kicad_sch (sheet_instances))" 1 2 3 4 "u").1 = true := by
  refine ⟨claim_C10.1 _ _ _ (by decide),
    (claim_C10.2.1 _ [.sym "kicad_sch", .list [.sym "lib_symbols"]]
      (by decide) (by decide)).1 1 2 3 4 "u", ?_⟩
  rw [claim_C10.2.2 "(kicad_sch (sheet_instances))"
    [.sym "kicad_sch", .list [.sym "sheet_instances"]] 1 (by decide) (by decide) 1 2 3 4 "u"]

/-- C9, witness: in a document whose only instance is `R1_`, the reference
`R1` resolves to `R1_`, and `X1` (with no variant present) fails. -/
theorem claim_C9_witness :
    resolveSymbolReference ["R1_"] "R1" = some "R1_" ∧
    resolveSymbolReference ["R1_"] "X1" = none := by
  constructor
  · exact (claim_C9 ["R1_"] "R1").2.1 (by decide) (by decide) (by decide)
  · exact (claim_C9 ["R1_"] "X1").2.2.2.mpr (by decide)

/-! ## Character-class and digit lemmas for the parsing round-trip -/

theorem delim_cases (c : Char) (h : isDelimChar c = true) :
    c = ' ' ∨ c = '\n' ∨ c = '\t' ∨ c = '\r' ∨ c = '(' ∨ c = ')' ∨ c = '"' := by
  simp [isDelimChar, isWsChar] at h
  tauto

theorem not_delim_facts (c : Char) (h : isDelimChar c = false) :
    isWsChar c = false ∧ ¬(c = '(') ∧ ¬(c = ')') ∧ ¬(c = '"') := by
  simp [isDelimChar, isWsChar] at h ⊢
  tauto

theorem delim_not_digit (c : Char) (h : isDelimChar c = true) :
    isDigitChar c = false := by
  rcases delim_cases c h with rfl | rfl | rfl | rfl | rfl | rfl | rfl <;> decide

theorem digit_not_delim (c : Char) (h : isDigitChar c = true) :
    isDelimChar c = false := by
  rcases hd : isDelimChar c with _ | _
  · rfl
  · rw [delim_not_digit c hd] at h
    cases h

theorem digitChar_toNat (d : Nat) (h : d < 10) : (digitChar d).toNat = 48 + d := by
  interval_cases d <;> decide

theorem digitChar_isDigit (d : Nat) (h : d < 10) : isDigitChar (digitChar d) = true := by
  interval_cases d <;> decide

theorem digitsToNat_append (ds : Chars) (c : Char) :
    digitsToNat (ds ++ [c]) = digitsToNat ds * 10 + (c.toNat - 48) := by
  simp [digitsToNat, List.foldl_append]

theorem natCharsAux_correct (fuel n : Nat) (h : n < fuel) :
    digitsToNat (natCharsAux fuel n) = n := by
  induction fuel generalizing n with
  | zero => omega
  | succ fuel ih =>
      rw [natCharsAux]
      by_cases h10 : n < 10
      · rw [if_pos h10]
        simp [digitsToNat, digitChar_toNat n h10]
      · rw [if_neg h10]
        rw [digitsToNat_append, ih (n / 10) (by omega),
          digitChar_toNat (n % 10) (by omega)]
        omega

theorem natChars_correct (n : Nat) : digitsToNat (natChars n) = n :=
  natCharsAux_correct (n + 1) n (Nat.lt_succ_self n)

theorem natCharsAux_digits (fuel n : Nat) :
    ∀ c ∈ natCharsAux fuel n, isDigitChar c = true := by
  induction fuel generalizing n with
  | zero => intro c hc; cases hc
  | succ fuel ih =>
      intro c hc
      rw [natCharsAux] at hc
      by_cases h10 : n < 10
      · rw [if_pos h10] at hc
        simp at hc
        subst hc
        exact digitChar_isDigit n h10
      · rw [if_neg h10] at hc
        rcases List.mem_append.mp hc with h | h
        · exact ih (n / 10) c h
        · simp at h
          subst h
          exact digitChar_isDigit (n % 10) (by omega)

theorem natChars_ne_nil (n : Nat) : natChars n ≠ [] := by
  rw [natChars, natCharsAux]
  by_cases h10 : n < 10
  · rw [if_pos h10]; simp
  · rw [if_neg h10]; simp

theorem digitsTail_of_digits (ds : Chars)
    (hd : ∀ c ∈ ds, isDigitChar c = true) : digitsTail ds = true := by
  induction ds with
  | nil => rfl
  | cons c cs ih =>
      have hc := hd c (by simp)
      rw [digitsTail.eq_def]
      simp only [hc, if_true]
      exact ih (fun x hx => hd x (by simp [hx]))

theorem digitsU_of_digits (ds : Chars) (hne : ds ≠ [])
    (hd : ∀ c ∈ ds, isDigitChar c = true) : digitsU ds = true := by
  match ds, hne with
  | c :: cs, _ =>
      simp only [digitsU, Bool.and_eq_true]
      exact ⟨hd c (by simp), digitsTail_of_digits cs (fun x hx => hd x (by simp [hx]))⟩

theorem digit_ne_sign (c : Char) (h : isDigitChar c = true) : c ≠ '+' ∧ c ≠ '-' := by
  refine ⟨?_, ?_⟩ <;> intro hc <;> rw [hc] at h <;> exact absurd h (by decide)

theorem stripSign_of_digit (c : Char) (cs : Chars) (h : isDigitChar c = true) :
    stripSign (c :: cs) = c :: cs := by
  obtain ⟨hp, hm⟩ := digit_ne_sign c h
  simp [stripSign, hp, hm]

theorem isNegSign_of_digit (c : Char) (cs : Chars) (h : isDigitChar c = true) :
    isNegSign (c :: cs) = false := by
  obtain ⟨hp, hm⟩ := digit_ne_sign c h
  simp [isNegSign, hm]

theorem filter_digits_self (ds : Chars)
    (hd : ∀ c ∈ ds, isDigitChar c = true) : ds.filter isDigitChar = ds :=
  List.filter_eq_self.mpr hd

theorem intChars_isIntToken (n : Int) : isIntToken (intChars n) = true := by
  have hdig : ∀ c ∈ natChars n.natAbs, isDigitChar c = true :=
    fun c hc => natCharsAux_digits _ _ c hc
  rw [isIntToken, intChars]
  by_cases hneg : n < 0
  · rw [if_pos hneg]
    rw [show stripSign ('-' :: natChars n.natAbs) = natChars n.natAbs by
      simp [stripSign]]
    exact digitsU_of_digits _ (natChars_ne_nil _) hdig
  · rw [if_neg hneg]
    rcases hns : natChars n.natAbs with _ | ⟨c, cs⟩
    · exact absurd hns (natChars_ne_nil n.natAbs)
    · rw [stripSign_of_digit c cs (hdig c (by rw [hns]; simp)), ← hns]
      exact digitsU_of_digits _ (natChars_ne_nil _) hdig

theorem intChars_all_not_delim (n : Int) :
    (intChars n).all (fun c => !isDelimChar c) = true := by
  rw [List.all_eq_true]
  intro c hc
  rw [intChars] at hc
  have hdig : isDigitChar c = true ∨ c = '-' := by
    by_cases hneg : n < 0
    · rw [if_pos hneg] at hc
      rcases List.mem_cons.mp hc with h | h
      · exact Or.inr h
      · exact Or.inl (natCharsAux_digits _ _ c h)
    · rw [if_neg hneg] at hc
      exact Or.inl (natCharsAux_digits _ _ c hc)
  rcases hdig with h | rfl
  · simp [digit_not_delim c h]
  · decide

theorem tokToInt_intChars (n : Int) : tokToInt (intChars n) = n := by
  have hdig : ∀ c ∈ natChars n.natAbs, isDigitChar c = true :=
    fun c hc => natCharsAux_digits _ _ c hc
  rw [tokToInt, intChars]
  by_cases hneg : n < 0
  · rw [if_pos hneg]
    rw [show isNegSign ('-' :: natChars n.natAbs) = true by simp [isNegSign]]
    rw [if_pos rfl]
    rw [show stripSign ('-' :: natChars n.natAbs) = natChars n.natAbs by
      simp [stripSign]]
    rw [filter_digits_self _ hdig, natChars_correct]
    omega
  · rw [if_neg hneg]
    rcases hns : natChars n.natAbs with _ | ⟨c, cs⟩
    · exact absurd hns (natChars_ne_nil n.natAbs)
    · rw [isNegSign_of_digit c cs (hdig c (by rw [hns]; simp))]
      rw [if_neg (by simp)]
      rw [stripSign_of_digit c cs (hdig c (by rw [hns]; simp)), ← hns]
      rw [filter_digits_self _ hdig, natChars_correct]
      omega

theorem classify_intChars (n : Int) : classify (intChars n) = .int n := by
  rw [classify, if_pos (intChars_isIntToken n), tokToInt_intChars]

theorem String.mk_data (s : String) : String.mk s.data = s := by
  cases s
  rfl

theorem intChars_ne_nil (n : Int) : intChars n ≠ [] := by
  rw [intChars]
  by_cases hneg : n < 0
  · rw [if_pos hneg]; simp
  · rw [if_neg hneg]; exact natChars_ne_nil n.natAbs

theorem wfList_mem (xs : List SExpr) (h : wfList xs = true) :
    ∀ y ∈ xs, wfSExpr y = true := by
  induction xs with
  | nil => intro y hy; cases hy
  | cons x xs ih =>
      rw [wfList, Bool.and_eq_true] at h
      intro y hy
      rcases List.mem_cons.mp hy with rfl | hy
      · exact h.1
      · exact ih h.2 y hy

/-! ## Tokenizer step lemmas -/

theorem tokAux_ws (c : Char) (cs : Chars) (cur : Option Chars) (acc : List Tok)
    (h : isWsChar c = true) :
    tokAux (c :: cs) (.normal cur) acc = tokAux cs (.normal none) (flushTok cur acc) := by
  simp [tokAux, h]

theorem tokAux_lp (cs : Chars) (cur : Option Chars) (acc : List Tok) :
    tokAux ('(' :: cs) (.normal cur) acc =
      tokAux cs (.normal none) (.lp :: flushTok cur acc) := by
  simp +decide [tokAux]

theorem tokAux_rp (cs : Chars) (cur : Option Chars) (acc : List Tok) :
    tokAux (')' :: cs) (.normal cur) acc =
      tokAux cs (.normal none) (.rp :: flushTok cur acc) := by
  simp +decide [tokAux]

theorem tokAux_quote (cs : Chars) (cur : Option Chars) (acc : List Tok) :
    tokAux ('"' :: cs) (.normal cur) acc = tokAux cs (.instr []) (flushTok cur acc) := by
  simp +decide [tokAux]

theorem tokAux_instr_close (cs : Chars) (cur : Chars) (acc : List Tok) :
    tokAux ('"' :: cs) (.instr cur) acc =
      tokAux cs (.normal none) (.str cur.reverse :: acc) := by
  simp [tokAux]

theorem tokAux_instr_char (c : Char) (cs : Chars) (cur : Chars) (acc : List Tok)
    (h : ¬(c = '"')) :
    tokAux (c :: cs) (.instr cur) acc = tokAux cs (.instr (c :: cur)) acc := by
  simp [tokAux, h]

theorem tokAux_chr (c : Char) (cs : Chars) (cur : Option Chars) (acc : List Tok)
    (h : isDelimChar c = false) :
    tokAux (c :: cs) (.normal cur) acc =
      tokAux cs (.normal (some (c :: cur.getD []))) acc := by
  obtain ⟨hws, hlp, hrp, hq⟩ := not_delim_facts c h
  cases cur <;> simp [tokAux, hws, hlp, hrp, hq]

theorem tokAux_flush (r : Chars) (cur : Chars) (acc : List Tok)
    (h : headDelim r = true) :
    tokAux r (.normal (some cur)) acc =
      tokAux r (.normal none) (Tok.atom cur.reverse :: acc) := by
  cases r with
  | nil => simp [tokAux, flushTok]
  | cons c cs =>
      have hd : isDelimChar c = true := by simpa [headDelim] using h
      rcases delim_cases c hd with rfl | rfl | rfl | rfl | rfl | rfl | rfl <;>
        simp +decide [tokAux, flushTok]

theorem tokAux_atom_chars (s : Chars) :
    s.all (fun c => !isDelimChar c) = true →
    ∀ (r : Chars) (cur : Chars) (acc : List Tok),
      tokAux (s ++ r) (.normal (some cur)) acc =
        tokAux r (.normal (some (s.reverse ++ cur))) acc := by
  induction s with
  | nil => intro _ r cur acc; simp
  | cons c cs ih =>
      intro hall r cur acc
      rw [List.all_cons, Bool.and_eq_true, Bool.not_eq_true'] at hall
      rw [List.cons_append, tokAux_chr c _ (some cur) acc hall.1]
      rw [show (some cur).getD [] = cur from rfl]
      rw [ih hall.2 r (c :: cur) acc]
      congr 1
      simp

theorem tokAux_atom (s r : Chars) (acc : List Tok) (hne : s ≠ [])
    (hall : s.all (fun c => !isDelimChar c) = true) (hr : headDelim r = true) :
    tokAux (s ++ r) (.normal none) acc = tokAux r (.normal none) (Tok.atom s :: acc) := by
  match s, hne with
  | c :: cs, _ =>
      rw [List.all_cons, Bool.and_eq_true, Bool.not_eq_true'] at hall
      rw [List.cons_append, tokAux_chr c _ none acc hall.1]
      rw [show (none : Option Chars).getD [] = [] from rfl]
      rw [tokAux_atom_chars cs hall.2 r [c] acc]
      rw [tokAux_flush r (cs.reverse ++ [c]) acc hr]
      congr 2
      simp

theorem tokAux_instr_run (s : Chars) :
    (∀ c ∈ s, ¬(c = '"')) →
    ∀ (r : Chars) (cur : Chars) (acc : List Tok),
      tokAux (s ++ r) (.instr cur) acc = tokAux r (.instr (s.reverse ++ cur)) acc := by
  induction s with
  | nil => intro _ r cur acc; simp
  | cons c cs ih =>
      intro h r cur acc
      rw [List.cons_append, tokAux_instr_char c _ cur acc (h c (by simp))]
      rw [ih (fun x hx => h x (by simp [hx])) r (c :: cur) acc]
      congr 1
      simp

theorem tokAux_string (s r : Chars) (acc : List Tok) (h : ∀ c ∈ s, ¬(c = '"'))
    : tokAux ('"' :: (s ++ '"' :: r)) (.normal none) acc =
      tokAux r (.normal none) (Tok.str s :: acc) := by
  rw [tokAux_quote (s ++ '"' :: r) none acc]
  rw [show flushTok none acc = acc from rfl]
  rw [tokAux_instr_run s h ('"' :: r) [] acc]
  rw [tokAux_instr_close r (s.reverse ++ []) acc]
  congr 2
  simp

/-! ## Tokenizing a serialized expression -/

theorem tokAux_dumps (e : SExpr) : wfSExpr e = true →
    ∀ (r : Chars) (acc : List Tok), headDelim r = true →
      tokAux (dumpsChars e ++ r) (.normal none) acc =
        tokAux r (.normal none) ((toks e).reverse ++ acc) := by
  induction e using SExpr.ind with
  | hsym s =>
      intro hwf r acc hr
      simp only [wfSExpr, Bool.and_eq_true, decide_eq_true_eq] at hwf
      simp only [dumpsChars, toks, List.reverse_cons, List.reverse_nil, List.nil_append]
      exact tokAux_atom s.data r acc hwf.1.1 hwf.1.2 hr
  | hstr s =>
      intro hwf r acc hr
      simp only [wfSExpr] at hwf
      have hnq : ∀ c ∈ s.data, ¬(c = '"') := by
        intro c hc
        have h := List.all_eq_true.mp hwf c hc
        simp at h
        exact h.1
      simp only [dumpsChars, toks, List.reverse_cons, List.reverse_nil, List.nil_append]
      rw [show ('"' :: s.data ++ ['"']) ++ r = '"' :: (s.data ++ '"' :: r) by simp]
      exact tokAux_string s.data r acc hnq
  | hint n =>
      intro _ r acc hr
      simp only [dumpsChars, toks, List.reverse_cons, List.reverse_nil, List.nil_append]
      exact tokAux_atom (intChars n) r acc (intChars_ne_nil n)
        (intChars_all_not_delim n) hr
  | hdec t =>
      intro hwf r acc hr
      simp only [wfSExpr, Bool.and_eq_true, decide_eq_true_eq] at hwf
      simp only [dumpsChars, toks, List.reverse_cons, List.reverse_nil, List.nil_append]
      exact tokAux_atom t.data r acc hwf.1.1.1 hwf.1.1.2 hr
  | hlist xs ih =>
      intro hwf r acc hr
      rw [show wfSExpr (.list xs) = wfList xs from rfl] at hwf
      have TL : ∀ (ys : List SExpr), (∀ y ∈ ys, y ∈ xs) →
          ∀ (r' : Chars) (acc' : List Tok), headDelim r' = true →
            tokAux (dumpsList ys ++ r') (.normal none) acc' =
              tokAux r' (.normal none) ((toksList ys).reverse ++ acc') := by
        intro ys
        induction ys with
        | nil =>
            intro _ r' acc' _
            simp [dumpsList, toksList]
        | cons y ys ihy =>
            intro hsub r' acc' hr'
            cases ys with
            | nil =>
                simp only [dumpsList, toksList]
                exact ih y (hsub y (by simp))
                  (wfList_mem xs hwf y (hsub y (by simp))) r' acc' hr'
            | cons z zs =>
                rw [show dumpsList (y :: z :: zs) =
                    dumpsChars y ++ ' ' :: dumpsList (z :: zs) from rfl]
                rw [List.append_assoc, List.cons_append,
                  ih y (hsub y (by simp)) (wfList_mem xs hwf y (hsub y (by simp)))
                    (' ' :: (dumpsList (z :: zs) ++ r')) acc' (by rfl)]
                rw [tokAux_ws ' ' _ none _ (by decide)]
                rw [show flushTok none ((toks y).reverse ++ acc') =
                    (toks y).reverse ++ acc' from rfl]
                rw [ihy (fun u hu => hsub u (by simp [hu])) r'
                  ((toks y).reverse ++ acc') hr']
                congr 1
                rw [show toksList (y :: z :: zs) = toks y ++ toksList (z :: zs) from rfl]
                simp
      rw [show dumpsChars (.list xs) = '(' :: dumpsList xs ++ [')'] from rfl]
      rw [show ('(' :: dumpsList xs ++ [')']) ++ r = '(' :: (dumpsList xs ++ ')' :: r)
        by simp]
      rw [tokAux_lp _ none acc]
      rw [show flushTok none acc = acc from rfl]
      rw [TL xs (fun y hy => hy) (')' :: r) (.lp :: acc) (by rfl)]
      rw [tokAux_rp r none _]
      rw [show flushTok none ((toksList xs).reverse ++ Tok.lp :: acc) =
          (toksList xs).reverse ++ Tok.lp :: acc from rfl]
      congr 1
      rw [show toks (.list xs) = .lp :: (toksList xs ++ [.rp]) from rfl]
      simp

theorem tokenize_dumps (e : SExpr) (h : wfSExpr e = true) :
    tokenize (dumpsChars e) = some (toks e) := by
  have hmain := tokAux_dumps e h [] [] (by decide)
  rw [List.append_nil] at hmain
  rw [tokenize, hmain]
  simp [tokAux, flushTok]

/-! ## Running the stack machine on the tokens of a serialized expression -/

theorem runPDA_toks (e : SExpr) : wfSExpr e = true →
    ∀ (ts : List Tok) (top : List SExpr) (stack : List (List SExpr)),
      runPDA (toks e ++ ts) (top :: stack) = runPDA ts ((e :: top) :: stack) := by
  induction e using SExpr.ind with
  | hsym s =>
      intro hwf ts top stack
      simp only [wfSExpr, Bool.and_eq_true, decide_eq_true_eq] at hwf
      simp only [toks, List.cons_append, List.nil_append, runPDA]
      rw [hwf.2]
      rfl
  | hstr s =>
      intro _ ts top stack
      simp only [toks, List.cons_append, List.nil_append, runPDA, String.mk_data]
      rfl
  | hint n =>
      intro _ ts top stack
      simp only [toks, List.cons_append, List.nil_append, runPDA]
      rw [classify_intChars n]
      rfl
  | hdec t =>
      intro hwf ts top stack
      simp only [wfSExpr, Bool.and_eq_true, decide_eq_true_eq] at hwf
      simp only [toks, List.cons_append, List.nil_append, runPDA]
      rw [hwf.1.2]
      rfl
  | hlist xs ih =>
      intro hwf ts top stack
      rw [show wfSExpr (.list xs) = wfList xs from rfl] at hwf
      have PL : ∀ (ys : List SExpr), (∀ y ∈ ys, y ∈ xs) →
          ∀ (ts' : List Tok) (top' : List SExpr) (stack' : List (List SExpr)),
            runPDA (toksList ys ++ ts') (top' :: stack') =
              runPDA ts' ((ys.reverse ++ top') :: stack') := by
        intro ys
        induction ys with
        | nil => intro _ ts' top' stack'; simp [toksList]
        | cons y ys ihy =>
            intro hsub ts' top' stack'
            cases ys with
            | nil =>
                simp only [toksList, List.reverse_cons, List.reverse_nil,
                  List.nil_append]
                rw [ih y (hsub y (by simp)) (wfList_mem xs hwf y (hsub y (by simp)))
                  ts' top' stack']
                simp
            | cons z zs =>
                rw [show toksList (y :: z :: zs) = toks y ++ toksList (z :: zs) from rfl]
                rw [List.append_assoc,
                  ih y (hsub y (by simp)) (wfList_mem xs hwf y (hsub y (by simp)))]
                rw [ihy (fun u hu => hsub u (by simp [hu])) ts' (y :: top') stack']
                congr 2
                simp
      rw [show toks (.list xs) = .lp :: (toksList xs ++ [.rp]) from rfl]
      rw [List.cons_append, runPDA, List.append_assoc]
      rw [PL xs (fun y hy => hy) ([Tok.rp] ++ ts) [] (top :: stack)]
      simp only [List.singleton_append, runPDA]
      rw [List.append_nil, List.reverse_reverse]
      rfl

theorem loads_dumps (e : SExpr) (h : wfSExpr e = true) : loads (dumps e) = some e := by
  rw [loads, show (dumps e).data = dumpsChars e from rfl, tokenize_dumps e h]
  show runPDA (toks e) [[]] = some e
  have hrun := runPDA_toks e h [] [] []
  rw [List.append_nil] at hrun
  rw [hrun]
  rfl

/-! ## Claim C4 -/

/-- C4, counterexample: the well-formed input `"(kicad_sch\n)"` re-serializes
to `"(kicad_sch)"` (whitespace canonicalized), and `"(value 1.270)"`
re-serializes to `"(value 1.27)"` (the bare token parsed by the `float`
fallback and re-printed from its value): parse-then-serialize with zero
edits is not the identity on accepted input. -/
theorem claim_C4_counterexample :
    reserialize "(kicad_sch\n)" = some "(kicad_sch)" ∧
    ¬(("(kicad_sch)" : String) = "(kicad_sch\n)") ∧
    reserialize "(value 1.270)" = some "(value 1.27)" ∧
    ¬(("(value 1.27)" : String) = "(value 1.270)") :=
  ⟨by decide, by decide, by decide, by decide⟩

/-- C4, amended: serialize ∘ parse is the identity exactly on canonically
formatted text, float literals included (a well-formed float carries its
canonical spelling: `classify` maps the spelling back to the same value);
in general the composition is idempotent: parsing a serialized well-formed
document recovers it exactly (`parse (dumps e) = some e`), so re-serializing
a once-serialized document is the identity. -/
theorem claim_C4 (e : SExpr) (h : wfSExpr e = true) :
    loads (dumps e) = some e ∧ reserialize (dumps e) = some (dumps e) := by
  refine ⟨loads_dumps e h, ?_⟩
  rw [reserialize, loads_dumps e h, Option.map_some']

/-- C4, witness: the amended theorem at a small document with a symbol, a
nested list, an integer, a canonically spelled float literal and a string. -/
theorem claim_C4_witness :
    loads (dumps (.list [.sym "kicad_sch", .list [.sym "lib_symbols"],
        .int 42, .dec "1.27", .str "A4"])) =
      some (.list [.sym "kicad_sch", .list [.sym "lib_symbols"], .int 42,
        .dec "1.27", .str "A4"]) ∧
    reserialize (dumps (.list [.sym "kicad_sch", .list [.sym "lib_symbols"],
        .int 42, .dec "1.27", .str "A4"])) =
      some (dumps (.list [.sym "kicad_sch", .list [.sym "lib_symbols"],
        .int 42, .dec "1.27", .str "A4"])) :=
  claim_C4 _ (by decide)

/-! ## Claim C1 -/

theorem pyFindIdxAux_bounds (p : SExpr → Bool) :
    ∀ (l : List SExpr) (j i : Nat), pyFindIdxAux p l j = some i →
      j ≤ i ∧ i - j < l.length := by
  intro l
  induction l with
  | nil => intro j i h; cases h
  | cons x xs ih =>
      intro j i h
      rw [pyFindIdxAux] at h
      by_cases hp : p x = true
      · rw [if_pos hp] at h
        injection h with h
        subst h
        simp
      · rw [if_neg hp] at h
        have := ih (j + 1) i h
        simp only [List.length_cons]
        omega

theorem pyFindIdx_lt (p : SExpr → Bool) (l : List SExpr) (i : Nat)
    (h : pyFindIdx p l = some i) : i < l.length := by
  have := pyFindIdxAux_bounds p l 0 i h
  omega

theorem dumpsList_append (a b : List SExpr) (ha : a ≠ []) (hb : b ≠ []) :
    dumpsList (a ++ b) = dumpsList a ++ ' ' :: dumpsList b := by
  induction a with
  | nil => exact absurd rfl ha
  | cons x a iha =>
      cases a with
      | nil =>
          cases b with
          | nil => exact absurd rfl hb
          | cons y bs => rfl
      | cons z a' =>
          have hstep : dumpsList ((x :: z :: a' : List SExpr) ++ b) =
              dumpsChars x ++ ' ' :: dumpsList ((z :: a') ++ b) := rfl
          rw [hstep, iha (by simp) ]
          rw [show dumpsList (x :: z :: a') = dumpsChars x ++ ' ' :: dumpsList (z :: a')
            from rfl]
          simp

theorem insert_between (A B ins : Chars) :
    ∃ p ins', A ++ ins ++ B = (A ++ B).take p ++ ins' ++ (A ++ B).drop p :=
  ⟨A.length, ins, by rw [List.take_left, List.drop_left]⟩

/-- C1, counterexample: inserting a wire into a schematic that contains
newlines and indentation rewrites the whole file in canonical single-line
form — the two newline bytes of the input survive nowhere in the output, so
the output is not the input with content inserted at a single position, and
bytes outside the edited span (the insertion point) are not copied
verbatim. -/
theorem claim_C1_counterexample :
    (addWire "(kicad_sch\n  (sheet_instances)\n)" 1 2 3 4 "u").1 = true ∧
    ¬∃ (p : Nat) (ins : Chars),
      (addWire "(kicad_sch\n  (sheet_instances)\n)" 1 2 3 4 "u").2.data =
        ("(kicad_sch\n  (sheet_instances)\n)" : String).data.take p ++ ins ++
        ("(kicad_sch\n  (sheet_instances)\n)" : String).data.drop p := by
  constructor
  · decide
  · rintro ⟨p, ins, heq⟩
    have hcnt := congrArg (List.count '\n') heq
    rw [List.count_append, List.count_append] at hcnt
    have hsplit : List.count '\n' (("(kicad_sch\n  (sheet_instances)\n)" : String).data.take p) +
        List.count '\n' (("(kicad_sch\n  (sheet_instances)\n)" : String).data.drop p) =
        List.count '\n' ("(kicad_sch\n  (sheet_instances)\n)" : String).data := by
      rw [← List.count_append, List.take_append_drop]
    have h2 : List.count '\n' ("(kicad_sch\n  (sheet_instances)\n)" : String).data = 2 := by
      decide
    have h0 : List.count '\n'
        (addWire "(kicad_sch\n  (sheet_instances)\n)" 1 2 3 4 "u").2.data = 0 := by
      decide
    omega

/-- C1, amended: the edit-locality invariant holds only for input already in
canonical serialized form (canonically spelled atoms - float literals
included - and single-space separators): there, inserting a wire succeeds
and the output is the input text with the serialized wire element plus one
separating space inserted at a single byte position, every other byte copied
verbatim.  For non-canonical input the entire file is rewritten in canonical
form, whitespace collapsed and every atom re-printed from its parsed value
(see the counterexample). -/
theorem claim_C1 (items : List SExpr) (x1 y1 x2 y2 : Int) (u : String) (i : Nat)
    (hwf : wfSExpr (.list items) = true)
    (hidx : pyFindIdx (isTagged "sheet_instances") items = some i) :
    (addWire (dumps (.list items)) x1 y1 x2 y2 u).1 = true ∧
    ∃ (p : Nat) (ins : Chars),
      (addWire (dumps (.list items)) x1 y1 x2 y2 u).2.data =
        (dumps (.list items)).data.take p ++ ins ++ (dumps (.list items)).data.drop p := by
  have hload := loads_dumps _ hwf
  have hred : addWire (dumps (.list items)) x1 y1 x2 y2 u =
      (true, dumps (.list (pyInsert items i (wireSexp x1 y1 x2 y2 0 "default" u)))) := by
    simp only [addWire, insertBeforeSheetInstances, hload, hidx]
  rw [hred]
  refine ⟨rfl, ?_⟩
  have hlen := pyFindIdx_lt _ _ _ hidx
  have hne : items ≠ [] := by
    intro h
    rw [h] at hlen
    simp at hlen
  have hdata_in : (dumps (.list items)).data = '(' :: dumpsList items ++ [')'] := rfl
  have hdata_out :
      (dumps (.list (pyInsert items i (wireSexp x1 y1 x2 y2 0 "default" u)))).data =
      '(' :: dumpsList (pyInsert items i (wireSexp x1 y1 x2 y2 0 "default" u)) ++ [')'] :=
    rfl
  by_cases hi : i = 0
  · subst hi
    obtain ⟨z, rest, rfl⟩ : ∃ z rest, items = z :: rest := by
      cases items with
      | nil => exact absurd rfl hne
      | cons z rest => exact ⟨z, rest, rfl⟩
    have hins : pyInsert (z :: rest) 0 (wireSexp x1 y1 x2 y2 0 "default" u) =
        wireSexp x1 y1 x2 y2 0 "default" u :: z :: rest := by
      simp [pyInsert]
    rw [hdata_out, hdata_in, hins]
    rw [show dumpsList (wireSexp x1 y1 x2 y2 0 "default" u :: z :: rest) =
        dumpsChars (wireSexp x1 y1 x2 y2 0 "default" u) ++ ' ' :: dumpsList (z :: rest)
      from rfl]
    obtain ⟨p, ins, hpi⟩ := insert_between ['('] (dumpsList (z :: rest) ++ [')'])
      (dumpsChars (wireSexp x1 y1 x2 y2 0 "default" u) ++ [' '])
    have hout_eq : '(' :: (dumpsChars (wireSexp x1 y1 x2 y2 0 "default" u) ++
          ' ' :: dumpsList (z :: rest)) ++ [')'] =
        ['('] ++ (dumpsChars (wireSexp x1 y1 x2 y2 0 "default" u) ++ [' ']) ++
          (dumpsList (z :: rest) ++ [')']) := by
      simp
    have hin_eq : '(' :: dumpsList (z :: rest) ++ [')'] =
        ['('] ++ (dumpsList (z :: rest) ++ [')']) := by
      simp
    rw [hout_eq, hin_eq]
    exact ⟨p, ins, hpi⟩
  · have hpre : items.take i ≠ [] := by
      have hlt : (items.take i).length = i := by
        rw [List.length_take]
        omega
      intro hnil
      rw [hnil] at hlt
      simp at hlt
      omega
    have hpost : items.drop i ≠ [] := by
      have hld : (items.drop i).length = items.length - i := List.length_drop i items
      intro hnil
      rw [hnil] at hld
      simp at hld
      omega
    obtain ⟨z, rest, hzr⟩ : ∃ z rest, items.drop i = z :: rest := by
      cases hd : items.drop i with
      | nil => exact absurd hd hpost
      | cons z rest => exact ⟨z, rest, rfl⟩
    have hbody_in : dumpsList items =
        dumpsList (items.take i) ++ ' ' :: dumpsList (items.drop i) := by
      conv_lhs => rw [← List.take_append_drop i items]
      exact dumpsList_append _ _ hpre hpost
    have hbody_out : dumpsList (pyInsert items i (wireSexp x1 y1 x2 y2 0 "default" u)) =
        dumpsList (items.take i) ++ ' ' ::
          (dumpsChars (wireSexp x1 y1 x2 y2 0 "default" u) ++
            ' ' :: dumpsList (items.drop i)) := by
      rw [pyInsert, dumpsList_append (items.take i)
        (wireSexp x1 y1 x2 y2 0 "default" u :: items.drop i) hpre (by simp)]
      congr 2
      rw [hzr]
      rfl
    obtain ⟨p, ins, hpi⟩ := insert_between
      ('(' :: dumpsList (items.take i) ++ [' '])
      (dumpsList (items.drop i) ++ [')'])
      (dumpsChars (wireSexp x1 y1 x2 y2 0 "default" u) ++ [' '])
    have hout_eq : '(' :: (dumpsList (items.take i) ++ ' ' ::
          (dumpsChars (wireSexp x1 y1 x2 y2 0 "default" u) ++
            ' ' :: dumpsList (items.drop i))) ++ [')'] =
        ('(' :: dumpsList (items.take i) ++ [' ']) ++
          (dumpsChars (wireSexp x1 y1 x2 y2 0 "default" u) ++ [' ']) ++
          (dumpsList (items.drop i) ++ [')']) := by
      simp
    have hin_eq : '(' :: (dumpsList (items.take i) ++ ' ' :: dumpsList (items.drop i)) ++
          [')'] =
        ('(' :: dumpsList (items.take i) ++ [' ']) ++ (dumpsList (items.drop i) ++ [')']) := by
      simp
    rw [hdata_out, hdata_in, hbody_out, hbody_in, hout_eq, hin_eq]
    exact ⟨p, ins, hpi⟩

/-- C1, witness: the amended theorem applied to the canonical document
`(kicad_sch 1.27 (sheet_instances))`, float literal included. -/
theorem claim_C1_witness :
    (addWire (dumps (.list [.sym "kicad_sch", .dec "1.27",
        .list [.sym "sheet_instances"]])) 1 2 3 4 "u").1 = true ∧
    ∃ (p : Nat) (ins : Chars),
      (addWire (dumps (.list [.sym "kicad_sch", .dec "1.27",
          .list [.sym "sheet_instances"]])) 1 2 3 4 "u").2.data =
        (dumps (.list [.sym "kicad_sch", .dec "1.27",
          .list [.sym "sheet_instances"]])).data.take p ++ ins ++
        (dumps (.list [.sym "kicad_sch", .dec "1.27",
          .list [.sym "sheet_instances"]])).data.drop p :=
  claim_C1 [.sym "kicad_sch", .dec "1.27", .list [.sym "sheet_instances"]]
    1 2 3 4 "u" 2 (by decide) (by decide)

end KicadMCP
